import Mathlib

/-!
Verification of the survey reconciliation engine in
`src/qualtrics_code/build_survey.py`.

The Python code is shallowly embedded: Python strings are Lean `String`
values, character-level operations (regex substitution, `str.split`,
`str.strip`, `int()` parsing, decimal formatting) are modelled on the
underlying `List Char`, Python dicts that the code iterates in insertion
order are association lists `List (String × α)`, and every remote HTTP
call issued by the engine is recorded in an explicit trace.
-/

namespace QualtricsBuild

/-! ## Character and string helpers (models of Python str operations) -/

/-- A decimal digit character, as produced by Python string formatting
of a digit value (only arguments below ten arise). -/
def digitChar : Nat → Char
  | 0 => '0' | 1 => '1' | 2 => '2' | 3 => '3' | 4 => '4'
  | 5 => '5' | 6 => '6' | 7 => '7' | 8 => '8' | _ => '9'

/-- Decimal digits of `n`, least significant first; `fuel` bounds the
recursion depth (any `fuel > n` is enough). -/
def natDigitsRevAux : Nat → Nat → List Char
  | 0 => fun _ => []
  | f + 1 => fun n =>
    if n < 10 then [digitChar n] else digitChar (n % 10) :: natDigitsRevAux f (n / 10)

/-- The decimal digit characters of `n`, most significant first: the
model of Python `str(n)` for a natural number. -/
def natRepr (n : Nat) : List Char := (natDigitsRevAux (n + 1) n).reverse

/-- The model of Python `str(n)` for an integer. -/
def intRepr : Int → List Char
  | Int.ofNat n => natRepr n
  | Int.negSucc m => '-' :: natRepr (m + 1)

/-- The numeric value of a decimal digit character, if it is one. -/
def digitVal? (c : Char) : Option Nat :=
  if 48 ≤ c.toNat ∧ c.toNat ≤ 57 then some (c.toNat - 48) else none

/-- Left-to-right accumulation of decimal digits; fails on any
non-digit character. -/
def parseDigitsAcc : Nat → List Char → Option Nat
  | acc, [] => some acc
  | acc, c :: cs =>
    match digitVal? c with
    | some d => parseDigitsAcc (acc * 10 + d) cs
    | none => none

/-- Model of Python `int(s)` on the canonical numerals produced by
`str`: an optional leading minus sign followed by one or more decimal
digits.  (Python `int` also tolerates surrounding whitespace, a leading
plus sign and underscores between digits; such inputs do not arise from
the identifiers this code generates.) -/
def pyInt? (cs : List Char) : Option Int :=
  match cs with
  | [] => none
  | c :: rest =>
    if c = '-' then
      if rest = [] then none else (parseDigitsAcc 0 rest).map (fun n => -(n : Int))
    else
      (parseDigitsAcc 0 cs).map (fun n => (n : Int))

/-- Worker for `splitChar`; `acc` holds the current segment reversed. -/
def splitCharAux (sep : Char) : List Char → List Char → List (List Char)
  | [], acc => [acc.reverse]
  | c :: cs, acc =>
    if c = sep then acc.reverse :: splitCharAux sep cs []
    else splitCharAux sep cs (c :: acc)

/-- Model of Python `s.split(sep)` for a one-character separator. -/
def splitChar (sep : Char) (cs : List Char) : List (List Char) := splitCharAux sep cs []

/-- Code-point comparison of characters, as used by Python string
ordering. -/
def charLt (a b : Char) : Bool := a.toNat < b.toNat

/-- Lexicographic code-point comparison of character lists: the model
of Python string `<`. -/
def charListLt : List Char → List Char → Bool
  | [], [] => false
  | [], _ :: _ => true
  | _ :: _, [] => false
  | a :: as, b :: bs => if charLt a b then true else if charLt b a then false else charListLt as bs

/-- Insert a key into an already sorted list of keys. -/
def insertSortedKey (k : String) : List String → List String
  | [] => [k]
  | x :: xs => if charListLt k.data x.data then k :: x :: xs else x :: insertSortedKey k xs

/-- Model of Python `sorted` on a collection of string keys
(an insertion sort by the lexicographic code-point order). -/
def sortKeys (l : List String) : List String := l.foldr insertSortedKey []

/-! ## Basic lemmas about the digit printer and parser -/

theorem digitVal?_digitChar (d : Nat) (hd : d ≤ 9) : digitVal? (digitChar d) = some d := by
  interval_cases d <;> decide

theorem digitChar_ne (d : Nat) (hd : d ≤ 9) : digitChar d ≠ '_' ∧ digitChar d ≠ '-' := by
  interval_cases d <;> decide

theorem parseDigitsAcc_append (l1 l2 : List Char) (acc : Nat) :
    parseDigitsAcc acc (l1 ++ l2) =
      match parseDigitsAcc acc l1 with
      | some a => parseDigitsAcc a l2
      | none => none := by
  induction l1 generalizing acc with
  | nil => simp [parseDigitsAcc]
  | cons c cs ih =>
    simp only [List.cons_append, parseDigitsAcc]
    cases digitVal? c with
    | none => simp
    | some d => simpa using ih (acc * 10 + d)

theorem natDigitsRevAux_succ (f n : Nat) :
    natDigitsRevAux (f + 1) n =
      if n < 10 then [digitChar n]
      else digitChar (n % 10) :: natDigitsRevAux f (n / 10) := by
  rw [natDigitsRevAux]

theorem natDigitsRevAux_spec (n : Nat) :
    ∀ fuel, n < fuel →
      (∀ acc, parseDigitsAcc acc (natDigitsRevAux fuel n).reverse =
        some (acc * 10 ^ (natDigitsRevAux fuel n).length + n)) ∧
      (∀ c ∈ natDigitsRevAux fuel n, ∃ d, d ≤ 9 ∧ c = digitChar d) ∧
      natDigitsRevAux fuel n ≠ [] := by
  induction n using Nat.strong_induction_on with
  | _ n ih =>
    intro fuel hfuel
    match fuel, hfuel with
    | f + 1, hfuel =>
      by_cases h10 : n < 10
      · rw [natDigitsRevAux_succ, if_pos h10]
        refine ⟨?_, ?_, by simp⟩
        · intro acc
          simp [parseDigitsAcc, digitVal?_digitChar n (by omega)]
        · intro c hc
          simp only [List.mem_singleton] at hc
          exact ⟨n, by omega, hc⟩
      · have hdiv : n / 10 < n := Nat.div_lt_self (by omega) (by omega)
        have hrec := ih (n / 10) hdiv f (by omega)
        rw [natDigitsRevAux_succ, if_neg h10]
        refine ⟨?_, ?_, by simp⟩
        · intro acc
          rw [List.reverse_cons, parseDigitsAcc_append, hrec.1 acc]
          have hd : digitVal? (digitChar (n % 10)) = some (n % 10) :=
            digitVal?_digitChar _ (by omega)
          simp only [parseDigitsAcc, hd, List.length_cons]
          have heq : (acc * 10 ^ (natDigitsRevAux f (n / 10)).length + n / 10) * 10 + n % 10 =
              acc * 10 ^ ((natDigitsRevAux f (n / 10)).length + 1) + n := by
            have hmod := Nat.div_add_mod n 10
            ring_nf
            omega
          rw [heq]
        · intro c hc
          simp only [List.mem_cons] at hc
          rcases hc with hc | hc
          · exact ⟨n % 10, by omega, hc⟩
          · exact hrec.2.1 c hc

theorem parseDigitsAcc_natRepr (n : Nat) : parseDigitsAcc 0 (natRepr n) = some n := by
  have h := (natDigitsRevAux_spec n (n + 1) (by omega)).1 0
  simpa [natRepr] using h

theorem natRepr_ne_nil (n : Nat) : natRepr n ≠ [] := by
  have h := (natDigitsRevAux_spec n (n + 1) (by omega)).2.2
  simpa [natRepr] using h

theorem mem_natRepr (n : Nat) : ∀ c ∈ natRepr n, ∃ d, d ≤ 9 ∧ c = digitChar d := by
  intro c hc
  have h := (natDigitsRevAux_spec n (n + 1) (by omega)).2.1
  exact h c (by simpa [natRepr] using hc)

theorem natRepr_head_digit (n : Nat) :
    ∃ c rest, natRepr n = c :: rest ∧ c ≠ '-' := by
  cases hr : natRepr n with
  | nil => exact absurd hr (natRepr_ne_nil n)
  | cons c rest =>
    refine ⟨c, rest, rfl, ?_⟩
    have hc : c ∈ natRepr n := by rw [hr]; exact List.mem_cons_self c rest
    obtain ⟨d, hd, rfl⟩ := mem_natRepr n c hc
    exact (digitChar_ne d hd).2

/-- The parser inverts the printer: the round trip through Python
string formatting and `int()` is the identity. -/
theorem pyInt?_intRepr (n : Int) : pyInt? (intRepr n) = some n := by
  cases n with
  | ofNat m =>
    obtain ⟨c, rest, hr, hc⟩ := natRepr_head_digit m
    simp only [intRepr, hr, pyInt?, if_neg hc]
    rw [← hr, parseDigitsAcc_natRepr]
    simp
  | negSucc m =>
    simp only [intRepr, pyInt?, if_pos rfl, natRepr_ne_nil (m + 1), if_neg (natRepr_ne_nil (m + 1))]
    rw [parseDigitsAcc_natRepr]
    simp [Int.negSucc_eq]

theorem intRepr_no_underscore (n : Int) : '_' ∉ intRepr n := by
  intro hmem
  cases n with
  | ofNat m =>
    obtain ⟨d, hd, hc⟩ := mem_natRepr m _ (by simpa [intRepr] using hmem)
    exact (digitChar_ne d hd).1 hc.symm
  | negSucc m =>
    simp only [intRepr, List.mem_cons] at hmem
    rcases hmem with h | h
    · exact absurd h.symm (by decide)
    · obtain ⟨d, hd, hc⟩ := mem_natRepr (m + 1) _ h
      exact (digitChar_ne d hd).1 hc.symm

theorem splitCharAux_no_sep (sep : Char) (cs : List Char) (hcs : sep ∉ cs) :
    ∀ acc, splitCharAux sep cs acc = [acc.reverse ++ cs] := by
  induction cs with
  | nil => intro acc; simp [splitCharAux]
  | cons c cs ih =>
    intro acc
    have hne : ¬(c = sep) := fun h => hcs (h ▸ List.mem_cons_self c cs)
    have hcs2 : sep ∉ cs := fun h => hcs (List.mem_cons_of_mem c h)
    simp only [splitCharAux, if_neg hne, ih hcs2]
    simp

theorem splitChar_underscore_tagged (ds : List Char) (hds : '_' ∉ ds) :
    splitChar '_' ('F' :: 'L' :: '_' :: ds) = [['F', 'L'], ds] := by
  simp only [splitChar, splitCharAux, if_neg (by decide : ¬('F' = '_')),
    if_neg (by decide : ¬('L' = '_')), if_pos rfl]
  rw [splitCharAux_no_sep '_' ds hds]
  rfl

/-! ## normalize_question_token and the embedded-data key set -/

/-- A word character in the sense of the regex class `\w` (the source
uses `\W`, its complement), restricted to ASCII: alphanumeric or
underscore. -/
def isWordChar (c : Char) : Bool := c.isAlphanum || c = '_'

/-- Worker for `subNonWordRuns`; the flag records whether the previous
character belonged to a non-word run whose underscore was already
emitted. -/
def subNonWordAux : Bool → List Char → List Char
  | _, [] => []
  | inRun, c :: cs =>
    if isWordChar c then c :: subNonWordAux false cs
    else if inRun then subNonWordAux true cs
    else '_' :: subNonWordAux true cs

/-- Model of `re.sub(r"\W+", "_", s)`: each maximal run of non-word
characters is replaced by a single underscore. -/
def subNonWordRuns (cs : List Char) : List Char := subNonWordAux false cs

/-- Model of Python `s.strip("_")`: drop underscores from both ends. -/
def stripUnderscores (cs : List Char) : List Char :=
  ((cs.dropWhile (fun c => c = '_')).reverse.dropWhile (fun c => c = '_')).reverse

/-- `normalize_question_token` from the source: collapse non-word runs
to underscores, strip outer underscores, fall back to `"chat_ui"`. -/
def normalize_question_token (question_name : String) : String :=
  let token := stripUnderscores (subNonWordRuns question_name.data)
  if token = [] then "chat_ui" else ⟨token⟩

/-- The embedded-data keys built by `get_question_fields` for a
question token (the values are environment lookups and are irrelevant
to key validation). -/
def question_field_keys (question_token : String) : List String :=
  ["model", "prompt", "temperature", "max_tokens", "max_chats",
   "delay_per_word", "chat_history", "chat_question_id"].map
    (fun suffix => question_token ++ "_" ++ suffix)

/-- The emptiness/whitespace test applied to each key by
`validate_embedded_field_keys`: a key is rejected when it is empty or
contains a space (`if not key or " " in key`). -/
def key_rejected (key : String) : Bool := key.data.isEmpty || key.data.contains ' '

theorem mem_subNonWordAux (cs : List Char) :
    ∀ flag c, c ∈ subNonWordAux flag cs → isWordChar c = true := by
  induction cs with
  | nil => intro flag c hc; simp [subNonWordAux] at hc
  | cons x xs ih =>
    intro flag c hc
    by_cases hx : isWordChar x
    · rw [subNonWordAux, if_pos hx] at hc
      rcases List.mem_cons.mp hc with rfl | hc
      · exact hx
      · exact ih false c hc
    · rw [subNonWordAux, if_neg hx] at hc
      by_cases hflag : flag
      · rw [if_pos hflag] at hc
        exact ih true c hc
      · rw [if_neg hflag] at hc
        rcases List.mem_cons.mp hc with rfl | hc
        · decide
        · exact ih true c hc

theorem mem_stripUnderscores (cs : List Char) (c : Char) (hc : c ∈ stripUnderscores cs) :
    c ∈ cs := by
  have h1 : ∀ (l : List Char), c ∈ l.dropWhile (fun d => d = '_') → c ∈ l := by
    intro l hmem
    exact (List.dropWhile_sublist (l := l) (fun d => d = '_')).mem hmem
  simp only [stripUnderscores, List.mem_reverse] at hc
  have := h1 _ hc
  simp only [List.mem_reverse] at this
  exact h1 _ this

theorem normalize_question_token_wordlike (question_name : String) :
    (normalize_question_token question_name).data ≠ [] ∧
      ∀ c ∈ (normalize_question_token question_name).data, isWordChar c = true := by
  rw [normalize_question_token]
  by_cases h : stripUnderscores (subNonWordRuns question_name.data) = []
  · rw [if_pos h]
    exact ⟨by decide, by decide⟩
  · rw [if_neg h]
    refine ⟨h, ?_⟩
    intro c hc
    exact mem_subNonWordAux _ false c (mem_stripUnderscores _ c hc)

theorem isWordChar_not_space (c : Char) (h : isWordChar c = true) : c ≠ ' ' := by
  intro hc
  subst hc
  exact absurd h (by decide)

/-! ## The survey data model

The remote survey document, as read and written through the
`/survey-definitions` endpoints.  Python dicts iterated in insertion
order (`Questions`, `Blocks`) are association lists; the defensive
normalisation of a server-returned empty list to an empty mapping makes
the empty association list the faithful image of both.  Structures
carry exactly the fields the reconciliation code inspects or writes. -/

structure Question where
  dataExportTag : String
  questionText : String
deriving DecidableEq, Repr

structure BlockElement where
  etype : String
  questionID : String
deriving DecidableEq, Repr

structure Block where
  description : String
  blockElements : List BlockElement
deriving DecidableEq, Repr

structure EmbeddedField where
  description : Option String
  field : String
  value : String
  ftype : String
deriving DecidableEq, Repr

structure FlowElement where
  ftype : String
  flowID : String
  blockID : String
  embeddedData : List EmbeddedField
  autofill : List String
  description : Option String
deriving DecidableEq, Repr

structure SurveyState where
  questions : List (String × Question)
  blocks : List (String × Block)
  flow : List FlowElement
deriving DecidableEq, Repr

/-- Dictionary lookup on an association list (first match, like a
Python dict with unique keys). -/
def lookupAssoc {α : Type} (l : List (String × α)) (k : String) : Option α :=
  (l.find? (fun p => p.1 == k)).map (fun p => p.2)

/-- In-place dictionary value update on an association list. -/
def updateAssoc {α : Type} (l : List (String × α)) (k : String) (v : α) : List (String × α) :=
  l.map (fun p => if p.1 == k then (k, v) else p)

/-! ## _next_flow_id -/

/-- `_next_flow_id` from the source: collect the integers `n` of
existing identifiers of the form `FL_<n>` (`fid.split("_")[1]` parsed
by `int`, failures skipped) and return `FL_<max+1>` (`FL_1` when no
identifier parses). -/
def _next_flow_id (flow_elements : List FlowElement) : String :=
  let existing : List Int := flow_elements.filterMap (fun el =>
    if ['F', 'L', '_'].isPrefixOf el.flowID.data then
      ((splitChar '_' el.flowID.data).get? 1).bind pyInt?
    else none)
  let next_num : Int := (existing.max?.getD 0) + 1
  ⟨'F' :: 'L' :: '_' :: intRepr next_num⟩

/-- The number a flow identifier contributes to the `existing` set of
`_next_flow_id`, if any. -/
def parseFlowNum? (fid : String) : Option Int :=
  if ['F', 'L', '_'].isPrefixOf fid.data then
    ((splitChar '_' fid.data).get? 1).bind pyInt?
  else none

theorem _next_flow_id_eq (flow_elements : List FlowElement) :
    _next_flow_id flow_elements =
      ⟨'F' :: 'L' :: '_' ::
        intRepr (((flow_elements.filterMap (fun el => parseFlowNum? el.flowID)).max?.getD 0) + 1)⟩ := by
  rfl

theorem parseFlowNum?_generated (n : Int) :
    parseFlowNum? ⟨'F' :: 'L' :: '_' :: intRepr n⟩ = some n := by
  rw [parseFlowNum?]
  have hpre : ['F', 'L', '_'].isPrefixOf ('F' :: 'L' :: '_' :: intRepr n) = true := by
    simp [List.isPrefixOf]
  simp only [hpre, if_pos]
  rw [splitChar_underscore_tagged _ (intRepr_no_underscore n)]
  simp [pyInt?_intRepr n]

theorem max?_ge_of_mem {l : List Int} {x : Int} (hx : x ∈ l) :
    ∃ m, l.max? = some m ∧ x ≤ m := by
  induction l with
  | nil => simp at hx
  | cons a as ih =>
    rcases List.mem_cons.mp hx with rfl | hx
    · cases has : as.max? with
      | none =>
        have : as = [] := by
          cases as with
          | nil => rfl
          | cons b bs => simp [List.max?] at has
        subst this
        exact ⟨x, by simp [List.max?], le_refl x⟩
      | some m =>
        refine ⟨max x m, ?_, le_max_left x m⟩
        rw [List.max?_cons, has]
        rfl
    · obtain ⟨m, hm, hle⟩ := ih hx
      refine ⟨max a m, ?_, le_trans hle (le_max_right a m)⟩
      rw [List.max?_cons, hm]
      rfl

/-- Freshness: the generated identifier differs from every flow
identifier currently present, including those whose suffix does not
parse as an integer. -/
theorem _next_flow_id_fresh (flow_elements : List FlowElement) :
    ∀ el ∈ flow_elements, el.flowID ≠ _next_flow_id flow_elements := by
  intro el hel heq
  set existing := flow_elements.filterMap (fun el => parseFlowNum? el.flowID) with hex
  set next_num : Int := (existing.max?.getD 0) + 1 with hnn
  have hparse : parseFlowNum? el.flowID = some next_num := by
    rw [_next_flow_id_eq] at heq
    rw [heq]
    exact parseFlowNum?_generated next_num
  have hmem : next_num ∈ existing := by
    rw [hex]
    exact List.mem_filterMap.mpr ⟨el, hel, hparse⟩
  obtain ⟨m, hm, hle⟩ := max?_ge_of_mem hmem
  rw [hm] at hnn
  simp only [Option.getD_some] at hnn
  omega

/-! ## Remote calls, errors, step results -/

/-- One remote API call, as issued by the engine.  Read calls carry no
payload; write calls carry the payload the code sends. -/
inductive ApiCall where
  | getSurveyDef
  | getQuestion (qid : String)
  | postQuestion (q : Question)
  | putQuestion (qid : String) (q : Question)
  | getFlowCall
  | putFlowCall (flow : List FlowElement)
  | postBlockCall (description : String)
  | putBlockCall (bid : String) (b : Block)
deriving DecidableEq, Repr

/-- Whether a call mutates remote state (POST or PUT). -/
def ApiCall.isMutating : ApiCall → Bool
  | ApiCall.postQuestion _ => true
  | ApiCall.putQuestion _ _ => true
  | ApiCall.putFlowCall _ => true
  | ApiCall.postBlockCall _ => true
  | ApiCall.putBlockCall _ _ => true
  | _ => false

/-- Whether a call touches the flow endpoint. -/
def ApiCall.isFlowWrite : ApiCall → Bool
  | ApiCall.putFlowCall _ => true
  | _ => false

/-- Errors that abort a run.  `ambiguousTag` models the `RuntimeError`
raised by `find_question_id_by_tag` on a duplicated `DataExportTag`: a
reconciliation-level invariant violation, distinct from the
`QualtricsAPIError` transport errors (which the success-path model of
the remote never produces). -/
inductive RunError where
  | ambiguousTag (ids : List String)
  | remoteError
deriving DecidableEq, Repr

/-- Step outcome: possibly failing result, resulting remote state, and
the trace of calls issued (also on failure). -/
inductive RunResult (α : Type) where
  | ok (a : α)
  | error (e : RunError)
deriving DecidableEq, Repr

abbrev StepResult (α : Type) := RunResult α × SurveyState × List ApiCall

/-! ## Step 2: ensure_chat_question -/

/-- `find_question_ids_by_tag`: the questions whose `DataExportTag`
equals the tag, in dictionary order (one survey-definition GET,
recorded by the caller). -/
def find_question_ids_by_tag (s : SurveyState) (tag : String) : List String :=
  ((s.questions.filter (fun p => p.2.dataExportTag == tag)).map (fun p => p.1))

/-- `ensure_chat_question`.  The rendered question HTML is the opaque
input `desired_text` (asset templating is outside the verified core);
`new_qid` is the question id the remote platform mints on a create.
Zero matches: create via one POST.  One match: fetch, compare text, and
either leave alone or rewrite via `update_question_text` (which fetches
the question again and issues one PUT).  Several matches: abort. -/
def ensure_chat_question (s : SurveyState) (tag desired_text new_qid : String) :
    StepResult (String × Bool) :=
  match find_question_ids_by_tag s tag with
  | [] =>
    let q : Question := { dataExportTag := tag, questionText := desired_text }
    (RunResult.ok (new_qid, true),
     { s with questions := s.questions ++ [(new_qid, q)] },
     [ApiCall.getSurveyDef, ApiCall.postQuestion q])
  | [qid] =>
    match lookupAssoc s.questions qid with
    | none => (RunResult.error RunError.remoteError, s, [ApiCall.getSurveyDef, ApiCall.getQuestion qid])
    | some q =>
      if q.questionText == desired_text then
        (RunResult.ok (qid, false), s, [ApiCall.getSurveyDef, ApiCall.getQuestion qid])
      else
        let q2 := { q with questionText := desired_text }
        (RunResult.ok (qid, false),
         { s with questions := updateAssoc s.questions qid q2 },
         [ApiCall.getSurveyDef, ApiCall.getQuestion qid, ApiCall.getQuestion qid,
          ApiCall.putQuestion qid q2])
  | ids => (RunResult.error (RunError.ambiguousTag ids), s, [ApiCall.getSurveyDef])

/-! ## Step 3: ensure_question_block -/

def CHATBOT_BLOCK_DESCRIPTION : String := "AI Chatbot"

/-- The first block whose `Description` is the chatbot block name, in
dictionary order. -/
def findChatbotBlockId (blocks : List (String × Block)) : Option String :=
  (blocks.find? (fun p => p.2.description == CHATBOT_BLOCK_DESCRIPTION)).map (fun p => p.1)

/-- Whether a block element references `qid` as a question. -/
def elementRefs (qid : String) (el : BlockElement) : Bool :=
  el.etype == "Question" && el.questionID == qid

/-- The foreign-block cleanup loop of `ensure_question_block`: every
block other than the target loses the elements referencing `qid`; each
block whose element list shrank is written back.  Returns the updated
blocks dictionary and the issued calls, in iteration order. -/
def cleanupForeignBlocks (qid chatbotId : String) :
    List (String × Block) → List (String × Block) × List ApiCall
  | [] => ([], [])
  | (bid, b) :: rest =>
    let r := cleanupForeignBlocks qid chatbotId rest
    if bid == chatbotId then ((bid, b) :: r.1, r.2)
    else
      let elements := b.blockElements.filter (fun el => !(elementRefs qid el))
      if elements.length ≠ b.blockElements.length then
        let b2 : Block := { b with blockElements := elements }
        ((bid, b2) :: r.1, ApiCall.putBlockCall bid b2 :: r.2)
      else ((bid, b) :: r.1, r.2)

/-- Python `list.insert`: an index beyond the end appends. -/
def insertAt {α : Type} : Nat → α → List α → List α
  | 0, a, l => a :: l
  | _ + 1, a, [] => [a]
  | n + 1, a, x :: l => x :: insertAt n a l

/-- `ensure_question_block`.  `new_bid` is the block id the remote
platform mints when the chatbot block has to be created.  Find or
create the target block (a create refetches the blocks); strip the
question from every other block; append it to the target if missing;
and, only when the block was created this run, insert a flow element
for it (at position 1, or 0 for an empty flow) and write the flow. -/
def ensure_question_block (s : SurveyState) (question_qid new_bid : String) : StepResult String :=
  let found := findChatbotBlockId s.blocks
  let chatbot_block_id := found.getD new_bid
  let created_new_block := found.isNone
  let s1 : SurveyState :=
    if created_new_block then
      { s with blocks := s.blocks ++
        [(new_bid, { description := CHATBOT_BLOCK_DESCRIPTION, blockElements := [] })] }
    else s
  let trace0 : List ApiCall :=
    if created_new_block then
      [ApiCall.getSurveyDef, ApiCall.postBlockCall CHATBOT_BLOCK_DESCRIPTION, ApiCall.getSurveyDef]
    else [ApiCall.getSurveyDef]
  let all_blocks := s1.blocks
  let cleaned := cleanupForeignBlocks question_qid chatbot_block_id all_blocks
  let target_block := (lookupAssoc all_blocks chatbot_block_id).getD
    { description := "", blockElements := [] }
  let target_elements := target_block.blockElements
  let already_present := target_elements.any (elementRefs question_qid)
  let afterTarget : List (String × Block) × List ApiCall :=
    if already_present then (cleaned.1, cleaned.2)
    else
      let target2 : Block :=
        { description :=
            if target_block.description = "" then CHATBOT_BLOCK_DESCRIPTION
            else target_block.description,
          blockElements := target_elements ++ [{ etype := "Question", questionID := question_qid }] }
      (updateAssoc cleaned.1 chatbot_block_id target2,
       cleaned.2 ++ [ApiCall.putBlockCall chatbot_block_id target2])
  let s2 : SurveyState := { s1 with blocks := afterTarget.1 }
  if created_new_block then
    let flow_elements := s2.flow
    let new_flow_element : FlowElement :=
      { ftype := "Standard", flowID := _next_flow_id flow_elements, blockID := chatbot_block_id,
        embeddedData := [], autofill := [], description := none }
    let insert_pos := if flow_elements = [] then 0 else 1
    let flow2 := insertAt insert_pos new_flow_element flow_elements
    (RunResult.ok chatbot_block_id, { s2 with flow := flow2 },
     trace0 ++ afterTarget.2 ++ [ApiCall.getFlowCall, ApiCall.putFlowCall flow2])
  else
    (RunResult.ok chatbot_block_id, s2, trace0 ++ afterTarget.2)

/-! ## Step 4: ensure_embedded_data -/

/-- `_upsert_embed_block` on the field list of the embedded-data
element: fields whose key is in `data` get their value and type
overwritten in place (and a missing description defaulted to the key);
keys of `data` not present yet are appended in sorted order; fields
with other keys are untouched. -/
def _upsert_embed_block (current : List EmbeddedField) (data : List (String × String)) :
    List EmbeddedField :=
  let updated := current.map (fun field_obj =>
    match lookupAssoc data field_obj.field with
    | some v =>
      { field_obj with
        value := v, ftype := "Custom",
        description :=
          match field_obj.description with
          | none => some field_obj.field
          | some d => some d }
    | none => field_obj)
  let remaining := (data.map (fun p => p.1)).filter
    (fun k => !(current.any (fun f => f.field == k)))
  updated ++ (sortKeys remaining).map (fun key =>
    { description := some key, field := key, value := (lookupAssoc data key).getD "",
      ftype := "Custom" })

/-- Model of Python `{**shared, **question}`: keys of the first dict in
order (values overridden by the second where shared), then the new keys
of the second dict in order. -/
def dictMerge (a b : List (String × String)) : List (String × String) :=
  a.map (fun p => (p.1, (lookupAssoc b p.1).getD p.2)) ++
    b.filter (fun p => !(a.any (fun q => q.1 == p.1)))

/-- Index of the first EmbeddedData-typed flow element, counting from
`i`: the `for i, el in enumerate(flow_elements)` scan. -/
def findEmbedIdxFrom : Nat → List FlowElement → Option Nat
  | _, [] => none
  | i, el :: rest =>
    if el.ftype == "EmbeddedData" then some i else findEmbedIdxFrom (i + 1) rest

def findEmbedIdx (flow_elements : List FlowElement) : Option Nat :=
  findEmbedIdxFrom 0 flow_elements

/-- `ensure_embedded_data`.  Merge the shared and per-question fields,
locate the embedded-data flow element (creating one with an empty field
list when absent), put it at flow position 0 preserving the order of the
other elements, merge the fields into it, and write the flow back
(unconditionally). -/
def ensure_embedded_data (s : SurveyState)
    (shared_data question_data : List (String × String)) : StepResult Unit :=
  let all_data := dictMerge shared_data question_data
  let flow_elements := s.flow
  match findEmbedIdx flow_elements with
  | none =>
    let embed_block : FlowElement :=
      { ftype := "EmbeddedData", flowID := _next_flow_id flow_elements, blockID := "",
        embeddedData := [], autofill := [], description := some "Chatbot Parameters" }
    let embed2 := { embed_block with embeddedData := _upsert_embed_block embed_block.embeddedData all_data }
    let flow2 := embed2 :: flow_elements
    (RunResult.ok (), { s with flow := flow2 }, [ApiCall.getFlowCall, ApiCall.putFlowCall flow2])
  | some i =>
    match flow_elements.get? i with
    | none => (RunResult.error RunError.remoteError, s, [ApiCall.getFlowCall])
    | some embed_block =>
      let embed2 := { embed_block with embeddedData := _upsert_embed_block embed_block.embeddedData all_data }
      let flow2 := embed2 :: flow_elements.eraseIdx i
      (RunResult.ok (), { s with flow := flow2 }, [ApiCall.getFlowCall, ApiCall.putFlowCall flow2])

/-! ## The whole run (steps 1 to 4 of `main`) -/

/-- One reconciliation run: verify the survey (read-only GET), upsert
the question, enforce block membership, upsert embedded data.  Any
failing step aborts the remainder; the trace records every call issued
up to that point. -/
def run_survey_build (s : SurveyState) (tag desired_text new_qid new_bid : String)
    (shared_data question_data : List (String × String)) : StepResult (String × String) :=
  let step1 : List ApiCall := [ApiCall.getSurveyDef]
  match ensure_chat_question s tag desired_text new_qid with
  | (RunResult.error e, s2, t2) => (RunResult.error e, s2, step1 ++ t2)
  | (RunResult.ok (qid, _wasCreated), s2, t2) =>
    match ensure_question_block s2 qid new_bid with
    | (RunResult.error e, s3, t3) => (RunResult.error e, s3, step1 ++ t2 ++ t3)
    | (RunResult.ok bid, s3, t3) =>
      match ensure_embedded_data s3 shared_data question_data with
      | (RunResult.error e, s4, t4) => (RunResult.error e, s4, step1 ++ t2 ++ t3 ++ t4)
      | (RunResult.ok _, s4, t4) => (RunResult.ok (qid, bid), s4, step1 ++ t2 ++ t3 ++ t4)

/-! ## The HTTP retry loop (`QualtricsClient._req`) -/

/-- What the network yields for one attempt of a logical call: a
connection/timeout failure, or a response with an HTTP status code. -/
inductive Attempt where
  | netError
  | response (status : Nat)
deriving DecidableEq, Repr

/-- The failure modes of `_req`: a network error with no response, an
HTTP error response, or the (unreachable for positive budgets)
fall-through after the loop.  All three carry structured context in the
source (`QualtricsAPIError`). -/
inductive ReqError where
  | network
  | httpError (status : Nat)
  | exhausted
deriving DecidableEq, Repr

/-- Result of a `_req` call: a successful response status or one of the
failure modes. -/
inductive ReqResult where
  | success (status : Nat)
  | failure (e : ReqError)
deriving DecidableEq, Repr

def IDEMPOTENT_METHODS : List String := ["GET", "HEAD", "OPTIONS", "PUT", "DELETE"]

/-- The transient statuses `_req` retries on. -/
def retryable_status (s : Nat) : Bool := s == 429 || s == 500 || s == 502 || s == 503 || s == 504

/-- `requests.Response.ok`: true exactly when the status is below 400. -/
def resp_ok (status : Nat) : Bool := status < 400

/-- Uppercasing of an ASCII method name (`method.upper()`). -/
def asciiUpper (s : String) : String :=
  ⟨s.data.map (fun c => if 97 ≤ c.toNat ∧ c.toNat ≤ 122 then Char.ofNat (c.toNat - 32) else c)⟩

structure ReqFinal where
  result : ReqResult
  attempts : Nat
  sleeps : Nat
deriving DecidableEq, Repr

/-- The attempt loop of `_req`: `attempt` counts from 1, each retry
sleeps once, and the loop body is entered at most `fuel` more times
(`fuel` starts at `max_attempts`, matching
`for attempt in range(1, max_attempts + 1)`; the fall-through raise
after the loop is the fuel-exhausted case). -/
def req_loop (idem : Bool) (max_attempts : Nat) (outcomes : Nat → Attempt) :
    Nat → Nat → Nat → ReqFinal
  | 0, attempt, sleeps =>
    { result := ReqResult.failure ReqError.exhausted, attempts := attempt - 1, sleeps := sleeps }
  | fuel + 1, attempt, sleeps =>
    match outcomes attempt with
    | Attempt.netError =>
      if idem = true ∧ attempt < max_attempts then
        req_loop idem max_attempts outcomes fuel (attempt + 1) (sleeps + 1)
      else
        { result := ReqResult.failure ReqError.network, attempts := attempt, sleeps := sleeps }
    | Attempt.response status =>
      if idem = true ∧ retryable_status status = true ∧ attempt < max_attempts then
        req_loop idem max_attempts outcomes fuel (attempt + 1) (sleeps + 1)
      else if resp_ok status = false then
        { result := ReqResult.failure (ReqError.httpError status), attempts := attempt, sleeps := sleeps }
      else
        { result := ReqResult.success status, attempts := attempt, sleeps := sleeps }

/-- `QualtricsClient._req`: classify the method as idempotent
(GET/HEAD/OPTIONS/PUT/DELETE after uppercasing) and run the bounded
attempt loop against the sequence of network outcomes. -/
def _req (method : String) (max_attempts : Nat) (outcomes : Nat → Attempt) : ReqFinal :=
  req_loop (IDEMPOTENT_METHODS.contains (asciiUpper method)) max_attempts outcomes max_attempts 1 0

/-! ## Helper lemmas -/

theorem string_data_append (s t : String) : (s ++ t).data = s.data ++ t.data := by
  cases s
  cases t
  rfl

theorem isWordChar_not_whitespace (c : Char) (h : isWordChar c = true) :
    c.isWhitespace = false := by
  by_contra hw
  rw [Bool.not_eq_false] at hw
  have hcases := hw
  simp only [Char.isWhitespace, Bool.or_eq_true, decide_eq_true_eq] at hcases
  rcases hcases with ((rfl | rfl) | rfl) | rfl <;> exact absurd h (by decide)

theorem key_from_token_ok (token suffix : String)
    (htok1 : token.data ≠ [])
    (htok2 : ∀ c ∈ token.data, isWordChar c = true)
    (hsuf : ' ' ∉ suffix.data) :
    key_rejected (token ++ "_" ++ suffix) = false := by
  have hu : ("_" : String).data = ['_'] := by decide
  have hdata : (token ++ "_" ++ suffix).data = token.data ++ '_' :: suffix.data := by
    rw [string_data_append, string_data_append, hu, List.append_assoc]
    rfl
  rw [key_rejected, hdata]
  have h1 : (token.data ++ '_' :: suffix.data).isEmpty = false := by
    cases htd : token.data with
    | nil => exact absurd htd htok1
    | cons a l => rfl
  have h2 : (token.data ++ '_' :: suffix.data).contains ' ' = false := by
    have hnotin : ' ' ∉ token.data ++ '_' :: suffix.data := by
      simp only [List.mem_append, List.mem_cons]
      rintro (hin | hin | hin)
      · exact isWordChar_not_space ' ' (htok2 ' ' hin) rfl
      · exact absurd hin.symm (by decide)
      · exact hsuf hin
    simpa using hnotin
  rw [h1, h2]
  rfl

/-! ## Claim C10 -/

/-- C10: for every input string, `normalize_question_token` returns a
non-empty token of word characters only (hence without whitespace),
falling back to `"chat_ui"` when normalisation yields the empty string;
consequently every per-question embedded-data key built from the token
by `get_question_fields` is non-empty and whitespace-free, so the
emptiness/whitespace check of `validate_embedded_field_keys` rejects
none of them. -/
theorem c10_normalize_token_keys_valid (question_name : String) :
    (normalize_question_token question_name).data ≠ [] ∧
    (∀ c ∈ (normalize_question_token question_name).data,
      isWordChar c = true ∧ c.isWhitespace = false) ∧
    (stripUnderscores (subNonWordRuns question_name.data) = [] →
      normalize_question_token question_name = "chat_ui") ∧
    (∀ key ∈ question_field_keys (normalize_question_token question_name),
      key_rejected key = false) := by
  obtain ⟨hne, hword⟩ := normalize_question_token_wordlike question_name
  refine ⟨hne, ?_, ?_, ?_⟩
  · intro c hc
    exact ⟨hword c hc, isWordChar_not_whitespace c (hword c hc)⟩
  · intro hempty
    rw [normalize_question_token, if_pos hempty]
  · intro key hkey
    simp only [question_field_keys, List.mem_map, List.mem_cons, List.not_mem_nil, or_false] at hkey
    obtain ⟨suffix, hsuf, rfl⟩ := hkey
    refine key_from_token_ok _ suffix hne hword ?_
    rcases hsuf with rfl | rfl | rfl | rfl | rfl | rfl | rfl | rfl <;> decide

/-- Witness for C10 at a concrete question name containing whitespace
and punctuation. -/
theorem c10_normalize_token_keys_valid_witness :
    key_rejected "My_Chat_model" = false ∧ normalize_question_token "My Chat!!" = "My_Chat" :=
  ⟨(c10_normalize_token_keys_valid "My Chat!!").2.2.2 "My_Chat_model" (by decide), by decide⟩

/-! ## Claim C9 -/

/-- A Standard flow element with the given flow id, used for concrete
examples. -/
def stdFlowElement (fid : String) : FlowElement :=
  { ftype := "Standard", flowID := fid, blockID := "B", embeddedData := [],
    autofill := [], description := none }

/-- C9: the generated flow id is `FL_<m+1>` where `m` is the maximum
integer parsed from existing ids of the form `FL_<n>` (`FL_1` when none
parses), and it is distinct from every id currently present, including
ids whose suffix fails to parse; in particular `{FL_1, FL_3, FL_7}`
yields `FL_8`. -/
theorem c9_next_flow_id (flow_elements : List FlowElement) :
    (∀ m, (flow_elements.filterMap (fun el => parseFlowNum? el.flowID)).max? = some m →
      _next_flow_id flow_elements = ⟨'F' :: 'L' :: '_' :: intRepr (m + 1)⟩) ∧
    ((flow_elements.filterMap (fun el => parseFlowNum? el.flowID)).max? = none →
      _next_flow_id flow_elements = "FL_1") ∧
    (∀ el ∈ flow_elements, el.flowID ≠ _next_flow_id flow_elements) ∧
    _next_flow_id [stdFlowElement "FL_1", stdFlowElement "FL_3", stdFlowElement "FL_7"] = "FL_8" := by
  refine ⟨?_, ?_, _next_flow_id_fresh flow_elements, by decide⟩
  · intro m hm
    rw [_next_flow_id_eq, hm]
    rfl
  · intro hm
    rw [_next_flow_id_eq, hm]
    decide

/-- Witness for C9 on the concrete id set `{FL_1, FL_3, FL_7}`. -/
theorem c9_next_flow_id_witness :
    _next_flow_id [stdFlowElement "FL_1", stdFlowElement "FL_3", stdFlowElement "FL_7"] =
      ⟨'F' :: 'L' :: '_' :: intRepr (7 + 1)⟩ ∧
    (stdFlowElement "FL_7").flowID ≠
      _next_flow_id [stdFlowElement "FL_1", stdFlowElement "FL_3", stdFlowElement "FL_7"] :=
  ⟨(c9_next_flow_id [stdFlowElement "FL_1", stdFlowElement "FL_3", stdFlowElement "FL_7"]).1 7
      (by decide),
   (c9_next_flow_id [stdFlowElement "FL_1", stdFlowElement "FL_3", stdFlowElement "FL_7"]).2.2.1
      (stdFlowElement "FL_7") (by decide)⟩

/-! ## Claim C2 -/

theorem retryable_status_not_ok (st : Nat) (h : retryable_status st = true) :
    resp_ok st = false := by
  simp only [retryable_status, Bool.or_eq_true, beq_iff_eq] at h
  simp only [resp_ok, decide_eq_false_iff_not, not_lt]
  omega

theorem req_loop_succ (idem : Bool) (n : Nat) (o : Nat → Attempt)
    (fuel attempt sleeps : Nat) :
    req_loop idem n o (fuel + 1) attempt sleeps =
      match o attempt with
      | Attempt.netError =>
        if idem = true ∧ attempt < n then req_loop idem n o fuel (attempt + 1) (sleeps + 1)
        else { result := ReqResult.failure ReqError.network, attempts := attempt, sleeps := sleeps }
      | Attempt.response status =>
        if idem = true ∧ retryable_status status = true ∧ attempt < n then
          req_loop idem n o fuel (attempt + 1) (sleeps + 1)
        else if resp_ok status = false then
          { result := ReqResult.failure (ReqError.httpError status), attempts := attempt, sleeps := sleeps }
        else
          { result := ReqResult.success status, attempts := attempt, sleeps := sleeps } := by
  rw [req_loop]

/-- The invariant of the attempt loop: attempts stay within the budget,
every sleep matches a retry, only network errors and retryable statuses
cause retries, a non-idempotent call never retries, and a run of
retry-triggering outcomes long enough to exhaust the budget ends in a
failure. -/
theorem req_loop_spec (idem : Bool) (n : Nat) (o : Nat → Attempt) :
    ∀ fuel attempt sleeps, attempt = sleeps + 1 → fuel + attempt = n + 1 → attempt ≤ n →
      (attempt ≤ (req_loop idem n o fuel attempt sleeps).attempts ∧
        (req_loop idem n o fuel attempt sleeps).attempts ≤ n ∧
        (req_loop idem n o fuel attempt sleeps).sleeps =
          (req_loop idem n o fuel attempt sleeps).attempts - 1) ∧
      (idem = false →
        req_loop idem n o fuel attempt sleeps =
          match o attempt with
          | Attempt.netError =>
            { result := ReqResult.failure ReqError.network, attempts := attempt, sleeps := sleeps }
          | Attempt.response st =>
            if resp_ok st = false then
              { result := ReqResult.failure (ReqError.httpError st), attempts := attempt, sleeps := sleeps }
            else
              { result := ReqResult.success st, attempts := attempt, sleeps := sleeps }) ∧
      (∀ k, attempt ≤ k → k < (req_loop idem n o fuel attempt sleeps).attempts →
        o k = Attempt.netError ∨ ∃ st, o k = Attempt.response st ∧ retryable_status st = true) ∧
      ((∀ k, attempt ≤ k → k ≤ n →
          o k = Attempt.netError ∨ ∃ st, o k = Attempt.response st ∧ retryable_status st = true) →
        ∃ e, (req_loop idem n o fuel attempt sleeps).result = ReqResult.failure e) := by
  intro fuel
  induction fuel with
  | zero =>
    intro attempt sleeps h1 h2 h3
    exact absurd h2 (by omega)
  | succ f ih =>
    intro attempt sleeps h1 h2 h3
    cases ho : o attempt with
    | netError =>
      by_cases hc : idem = true ∧ attempt < n
      · have hstep : req_loop idem n o (f + 1) attempt sleeps =
            req_loop idem n o f (attempt + 1) (sleeps + 1) := by
          rw [req_loop_succ, ho]
          exact if_pos hc
        have IH := ih (attempt + 1) (sleeps + 1) (by omega) (by omega) (by omega)
        rw [hstep]
        refine ⟨⟨le_trans (by omega) IH.1.1, IH.1.2.1, IH.1.2.2⟩, ?_, ?_, ?_⟩
        · intro hf
          rw [hf] at hc
          exact absurd hc.1 (by simp)
        · intro k hk1 hk2
          rcases Nat.eq_or_lt_of_le hk1 with rfl | hlt
          · exact Or.inl ho
          · exact IH.2.2.1 k (by omega) hk2
        · intro hall
          exact IH.2.2.2 (fun k hk1 hk2 => hall k (by omega) hk2)
      · have hstep : req_loop idem n o (f + 1) attempt sleeps =
            { result := ReqResult.failure ReqError.network, attempts := attempt, sleeps := sleeps } := by
          rw [req_loop_succ, ho]
          exact if_neg hc
        rw [hstep]
        refine ⟨⟨le_refl _, h3, show sleeps = attempt - 1 by omega⟩, ?_, ?_, ?_⟩
        · intro _
          rfl
        · intro k hk1 hk2
          have hk2a : k < attempt := hk2
          exact absurd hk2a (Nat.not_lt.mpr hk1)
        · intro _
          exact ⟨ReqError.network, rfl⟩
    | response st =>
      by_cases hc : idem = true ∧ retryable_status st = true ∧ attempt < n
      · have hstep : req_loop idem n o (f + 1) attempt sleeps =
            req_loop idem n o f (attempt + 1) (sleeps + 1) := by
          rw [req_loop_succ, ho]
          exact if_pos hc
        have IH := ih (attempt + 1) (sleeps + 1) (by omega) (by omega) (by omega)
        rw [hstep]
        refine ⟨⟨le_trans (by omega) IH.1.1, IH.1.2.1, IH.1.2.2⟩, ?_, ?_, ?_⟩
        · intro hf
          rw [hf] at hc
          exact absurd hc.1 (by simp)
        · intro k hk1 hk2
          rcases Nat.eq_or_lt_of_le hk1 with rfl | hlt
          · exact Or.inr ⟨st, ho, hc.2.1⟩
          · exact IH.2.2.1 k (by omega) hk2
        · intro hall
          exact IH.2.2.2 (fun k hk1 hk2 => hall k (by omega) hk2)
      · by_cases hok : resp_ok st = false
        · have hstep : req_loop idem n o (f + 1) attempt sleeps =
              { result := ReqResult.failure (ReqError.httpError st), attempts := attempt,
                sleeps := sleeps } := by
            rw [req_loop_succ, ho]
            exact (if_neg hc).trans (if_pos hok)
          rw [hstep]
          refine ⟨⟨le_refl _, h3, show sleeps = attempt - 1 by omega⟩, ?_, ?_, ?_⟩
          · intro _
            exact (if_pos hok).symm
          · intro k hk1 hk2
            have hk2a : k < attempt := hk2
            exact absurd hk2a (Nat.not_lt.mpr hk1)
          · intro _
            exact ⟨ReqError.httpError st, rfl⟩
        · have hstep : req_loop idem n o (f + 1) attempt sleeps =
              { result := ReqResult.success st, attempts := attempt, sleeps := sleeps } := by
            rw [req_loop_succ, ho]
            exact (if_neg hc).trans (if_neg hok)
          rw [hstep]
          refine ⟨⟨le_refl _, h3, show sleeps = attempt - 1 by omega⟩, ?_, ?_, ?_⟩
          · intro _
            exact (if_neg hok).symm
          · intro k hk1 hk2
            have hk2a : k < attempt := hk2
            exact absurd hk2a (Nat.not_lt.mpr hk1)
          · intro hall
            rcases hall attempt (le_refl attempt) h3 with hne | ⟨st2, hst2, hretry⟩
            · rw [ho] at hne
              exact absurd hne (by simp)
            · rw [ho] at hst2
              have : st = st2 := by injection hst2
              subst this
              exact absurd (retryable_status_not_ok st hretry) (by simpa using hok)

/-- C2 (amended): only methods in {GET, HEAD, OPTIONS, PUT, DELETE}
(after uppercasing) are ever retried, and only on a network failure or
a status in {429, 500, 502, 503, 504}; a POST is never retried — it
makes exactly one attempt, failing on a first network error or a first
response the client counts as not ok (status at least 400; the source
uses `resp.ok`, so a non-2xx status below 400 is treated as success,
not failure); a call makes at most `max_attempts` attempts with one
sleep per retry (hence at most `max_attempts - 1` sleeps) and ends in a
structured failure when every attempt hit a retry trigger; a GET
answered 503, 503, 200 succeeds after exactly 3 attempts and 2 sleeps,
and a POST answered 503 fails immediately with zero sleeps. -/
theorem c2_req_retry_policy (method : String) (n : Nat) (o : Nat → Attempt) (hn : 1 ≤ n) :
    (1 ≤ (_req method n o).attempts ∧ (_req method n o).attempts ≤ n ∧
      (_req method n o).sleeps = (_req method n o).attempts - 1) ∧
    (IDEMPOTENT_METHODS.contains (asciiUpper method) = false →
      (_req method n o).attempts = 1 ∧
      (o 1 = Attempt.netError →
        (_req method n o).result = ReqResult.failure ReqError.network) ∧
      (∀ st, o 1 = Attempt.response st → resp_ok st = false →
        (_req method n o).result = ReqResult.failure (ReqError.httpError st)) ∧
      (∀ st, o 1 = Attempt.response st → resp_ok st = true →
        (_req method n o).result = ReqResult.success st)) ∧
    (∀ k, 1 ≤ k → k < (_req method n o).attempts →
      o k = Attempt.netError ∨ ∃ st, o k = Attempt.response st ∧ retryable_status st = true) ∧
    ((∀ k, 1 ≤ k → k ≤ n →
        o k = Attempt.netError ∨ ∃ st, o k = Attempt.response st ∧ retryable_status st = true) →
      ∃ e, (_req method n o).result = ReqResult.failure e) ∧
    _req "GET" 5 (fun k => if k ≤ 2 then Attempt.response 503 else Attempt.response 200) =
      { result := ReqResult.success 200, attempts := 3, sleeps := 2 } ∧
    _req "POST" 5 (fun _ => Attempt.response 503) =
      { result := ReqResult.failure (ReqError.httpError 503), attempts := 1, sleeps := 0 } := by
  have hspec := req_loop_spec (IDEMPOTENT_METHODS.contains (asciiUpper method)) n o n 1 0 rfl
    (by omega) hn
  refine ⟨⟨hspec.1.1, hspec.1.2.1, hspec.1.2.2⟩, ?_, hspec.2.2.1, hspec.2.2.2, by decide, by decide⟩
  intro hidem
  have heq := hspec.2.1 hidem
  rw [_req] at *
  refine ⟨?_, ?_, ?_, ?_⟩
  · rw [heq]
    cases o 1 with
    | netError => rfl
    | response st =>
      by_cases hok : resp_ok st = false
      · exact congrArg ReqFinal.attempts (if_pos hok)
      · exact congrArg ReqFinal.attempts (if_neg hok)
  · intro ho
    rw [heq, ho]
  · intro st ho hok
    rw [heq, ho]
    exact congrArg ReqFinal.result (if_pos hok)
  · intro st ho hok
    rw [heq, ho]
    have hok2 : ¬ resp_ok st = false := by simp [hok]
    exact congrArg ReqFinal.result (if_neg hok2)

/-- Witness for C2 at a non-idempotent method that fails immediately
and an idempotent method that exhausts its budget. -/
theorem c2_req_retry_policy_witness :
    (_req "PATCH" 4 (fun _ => Attempt.response 503)).attempts = 1 ∧
    (∃ e, (_req "GET" 4 (fun _ => Attempt.response 503)).result = ReqResult.failure e) :=
  ⟨((c2_req_retry_policy "PATCH" 4 (fun _ => Attempt.response 503) (by omega)).2.1 (by decide)).1,
   (c2_req_retry_policy "GET" 4 (fun _ => Attempt.response 503) (by omega)).2.2.2.1
     (fun k _ _ => Or.inr ⟨503, rfl, by decide⟩)⟩

/-- C2 counterexample: a POST answered with HTTP 304 — not a 2xx
status — succeeds on its first attempt instead of failing, because the
client gates failure on `resp.ok`, which is true for every status below
400.  The claim asserts a POST fails on its first non-2xx response. -/
theorem c2_req_retry_policy_counterexample :
    _req "POST" 5 (fun _ => Attempt.response 304) =
      { result := ReqResult.success 304, attempts := 1, sleeps := 0 } ∧
    resp_ok 304 = true := by
  exact ⟨by decide, by decide⟩

/-! ## Claim C6 -/

theorem charLt_asymm (a b : Char) (h : charLt a b = true) : charLt b a = false := by
  simp only [charLt, decide_eq_true_eq, decide_eq_false_iff_not, not_lt] at *
  omega

theorem charListLt_asymm : ∀ (a b : List Char), charListLt a b = true → charListLt b a = false := by
  intro a
  induction a with
  | nil =>
    intro b h
    cases b with
    | nil => simpa [charListLt] using h
    | cons c cs => simp [charListLt]
  | cons x xs ih =>
    intro b h
    cases b with
    | nil => simp [charListLt] at h
    | cons y ys =>
      rw [charListLt] at h ⊢
      by_cases h1 : charLt x y = true
      · have h2 : charLt y x = false := charLt_asymm x y h1
        rw [if_neg (by simp [h2]), if_pos h1]
      · rw [if_neg h1] at h
        by_cases h2 : charLt y x = true
        · rw [if_pos h2] at h
          exact absurd h (by simp)
        · rw [if_neg h2] at h
          rw [if_neg h2, if_neg h1]
          exact ih ys h

theorem charListLt_le_trans :
    ∀ (a b c : List Char), charListLt b a = false → charListLt c b = false →
      charListLt c a = false := by
  intro a
  induction a with
  | nil =>
    intro b c h1 h2
    cases c with
    | nil => rfl
    | cons z zs => rfl
  | cons x xs ih =>
    intro b c h1 h2
    cases b with
    | nil => simp [charListLt] at h1
    | cons y ys =>
      cases c with
      | nil => simp [charListLt] at h2
      | cons z zs =>
        rw [charListLt] at h1 h2 ⊢
        by_cases hyx : charLt y x = true
        · rw [if_pos hyx] at h1
          exact absurd h1 (by simp)
        · rw [if_neg hyx] at h1
          by_cases hzy : charLt z y = true
          · rw [if_pos hzy] at h2
            exact absurd h2 (by simp)
          · rw [if_neg hzy] at h2
            have hzx : charLt z x = false := by
              simp only [charLt, decide_eq_true_eq, decide_eq_false_iff_not, not_lt] at hyx hzy ⊢
              omega
            rw [if_neg (by simp [hzx])]
            by_cases hxy : charLt x y = true
            · have hxz : charLt x z = true := by
                simp only [charLt, decide_eq_true_eq, decide_eq_false_iff_not, not_lt] at hxy hzy ⊢
                omega
              rw [if_pos hxz]
            · rw [if_neg hxy] at h1
              by_cases hyz : charLt y z = true
              · have hxz : charLt x z = true := by
                  simp only [charLt, decide_eq_true_eq, decide_eq_false_iff_not,
                    not_lt] at hxy hyx hyz ⊢
                  omega
                rw [if_pos hxz]
              · rw [if_neg hyz] at h2
                by_cases hxz : charLt x z = true
                · rw [if_pos hxz]
                · rw [if_neg hxz]
                  exact ih ys zs h1 h2

theorem mem_insertSortedKey (k x : String) :
    ∀ l, x ∈ insertSortedKey k l → x = k ∨ x ∈ l := by
  intro l
  induction l with
  | nil =>
    intro h
    simp only [insertSortedKey, List.mem_singleton] at h
    exact Or.inl h
  | cons y ys ih =>
    intro h
    rw [insertSortedKey] at h
    by_cases hc : charListLt k.data y.data = true
    · rw [if_pos hc] at h
      rcases List.mem_cons.mp h with rfl | h
      · exact Or.inl rfl
      · exact Or.inr h
    · rw [if_neg hc] at h
      rcases List.mem_cons.mp h with rfl | h
      · exact Or.inr (List.mem_cons_self x ys)
      · rcases ih h with rfl | h
        · exact Or.inl rfl
        · exact Or.inr (List.mem_cons_of_mem y h)

theorem pairwise_insertSortedKey (k : String) :
    ∀ l, List.Pairwise (fun a b => charListLt b.data a.data = false) l →
      List.Pairwise (fun a b => charListLt b.data a.data = false) (insertSortedKey k l) := by
  intro l
  induction l with
  | nil =>
    intro _
    simp [insertSortedKey]
  | cons x xs ih =>
    intro h
    rw [List.pairwise_cons] at h
    rw [insertSortedKey]
    by_cases hc : charListLt k.data x.data = true
    · rw [if_pos hc]
      rw [List.pairwise_cons]
      constructor
      · intro y hy
        rcases List.mem_cons.mp hy with rfl | hy
        · exact charListLt_asymm _ _ hc
        · exact charListLt_le_trans k.data x.data y.data (charListLt_asymm _ _ hc) (h.1 y hy)
      · exact List.Pairwise.cons h.1 h.2
    · rw [if_neg hc]
      rw [List.pairwise_cons]
      constructor
      · intro y hy
        rcases mem_insertSortedKey k y xs hy with rfl | hy
        · exact Bool.not_eq_true _ ▸ (by simpa using hc)
        · exact h.1 y hy
      · exact ih h.2

theorem perm_insertSortedKey (k : String) :
    ∀ l, (insertSortedKey k l).Perm (k :: l) := by
  intro l
  induction l with
  | nil => rfl
  | cons x xs ih =>
    rw [insertSortedKey]
    by_cases hc : charListLt k.data x.data = true
    · rw [if_pos hc]
    · rw [if_neg hc]
      exact List.Perm.trans (List.Perm.cons x ih) (List.Perm.swap k x xs)

theorem sortKeys_perm (l : List String) : (sortKeys l).Perm l := by
  induction l with
  | nil => rfl
  | cons x xs ih =>
    have h1 : sortKeys (x :: xs) = insertSortedKey x (sortKeys xs) := rfl
    rw [h1]
    exact List.Perm.trans (perm_insertSortedKey x (sortKeys xs)) (List.Perm.cons x ih)

theorem sortKeys_pairwise (l : List String) :
    List.Pairwise (fun a b => charListLt b.data a.data = false) (sortKeys l) := by
  induction l with
  | nil => exact List.Pairwise.nil
  | cons x xs ih => exact pairwise_insertSortedKey x (sortKeys xs) ih

/-- The keys of `data` absent from the current field list: the
`remaining` set of `_upsert_embed_block` at the end of its overwrite
loop. -/
def remainingKeys (current : List EmbeddedField) (data : List (String × String)) : List String :=
  (data.map (fun p => p.1)).filter (fun k => !(current.any (fun f => f.field == k)))

/-- The in-place overwrite `_upsert_embed_block` applies to one
existing field whose key is in the desired map. -/
def overwriteField (f : EmbeddedField) (v : String) : EmbeddedField :=
  { f with
    value := v, ftype := "Custom",
    description :=
      match f.description with
      | none => some f.field
      | some d => some d }

/-- C6: merging overwrites in place the value (and type) of each
existing field whose key is in the desired map, leaves every existing
field whose key is absent completely unchanged (key, value, position),
and appends the desired keys missing from the existing list — sorted,
with the desired values — after the existing fields; in particular
`{a:1, b:2}` merged with `{b:3, c:4}` yields `{a:1, b:3, c:4}`. -/
theorem c6_upsert_embed_block_merge (current : List EmbeddedField)
    (data : List (String × String)) :
    (∀ i f, current.get? i = some f → lookupAssoc data f.field = none →
      (_upsert_embed_block current data).get? i = some f) ∧
    (∀ i f v, current.get? i = some f → lookupAssoc data f.field = some v →
      (_upsert_embed_block current data).get? i = some (overwriteField f v)) ∧
    ((_upsert_embed_block current data).length =
      current.length + (sortKeys (remainingKeys current data)).length) ∧
    (((_upsert_embed_block current data).drop current.length).map (fun f => f.field) =
      sortKeys (remainingKeys current data)) ∧
    (∀ f ∈ (_upsert_embed_block current data).drop current.length,
      f.value = (lookupAssoc data f.field).getD "" ∧ f.ftype = "Custom") ∧
    List.Pairwise (fun a b => charListLt b.data a.data = false)
      (sortKeys (remainingKeys current data)) ∧
    (sortKeys (remainingKeys current data)).Perm (remainingKeys current data) ∧
    _upsert_embed_block
      [{ description := some "a", field := "a", value := "1", ftype := "Custom" },
       { description := some "b", field := "b", value := "2", ftype := "Custom" }]
      [("b", "3"), ("c", "4")] =
      [{ description := some "a", field := "a", value := "1", ftype := "Custom" },
       { description := some "b", field := "b", value := "3", ftype := "Custom" },
       { description := some "c", field := "c", value := "4", ftype := "Custom" }] := by
  have hup : _upsert_embed_block current data =
      (current.map (fun field_obj =>
        match lookupAssoc data field_obj.field with
        | some v => overwriteField field_obj v
        | none => field_obj)) ++
      (sortKeys (remainingKeys current data)).map (fun key =>
        { description := some key, field := key, value := (lookupAssoc data key).getD "",
          ftype := "Custom" }) := by
    rw [_upsert_embed_block]
    rfl
  have hlenmap : (current.map (fun field_obj =>
      match lookupAssoc data field_obj.field with
      | some v => overwriteField field_obj v
      | none => field_obj)).length = current.length := List.length_map _ _
  refine ⟨?_, ?_, ?_, ?_, ?_, sortKeys_pairwise _, sortKeys_perm _, by decide⟩
  · intro i f hget hnone
    have hi : i < current.length := by
      rcases List.get?_eq_some.mp hget with ⟨hi, _⟩
      exact hi
    rw [hup, List.get?_append (by rw [hlenmap]; exact hi), List.get?_map, hget]
    simp [hnone]
  · intro i f v hget hsome
    have hi : i < current.length := by
      rcases List.get?_eq_some.mp hget with ⟨hi, _⟩
      exact hi
    rw [hup, List.get?_append (by rw [hlenmap]; exact hi), List.get?_map, hget]
    simp [hsome]
  · rw [hup, List.length_append, hlenmap, List.length_map]
  · rw [hup]
    have hd := List.drop_left (current.map (fun field_obj =>
        match lookupAssoc data field_obj.field with
        | some v => overwriteField field_obj v
        | none => field_obj))
      ((sortKeys (remainingKeys current data)).map (fun key =>
        ({ description := some key, field := key, value := (lookupAssoc data key).getD "",
           ftype := "Custom" } : EmbeddedField)))
    rw [hlenmap] at hd
    rw [hd, List.map_map]
    exact List.map_id _
  · intro f hf
    rw [hup] at hf
    have hd := List.drop_left (current.map (fun field_obj =>
        match lookupAssoc data field_obj.field with
        | some v => overwriteField field_obj v
        | none => field_obj))
      ((sortKeys (remainingKeys current data)).map (fun key =>
        ({ description := some key, field := key, value := (lookupAssoc data key).getD "",
           ftype := "Custom" } : EmbeddedField)))
    rw [hlenmap] at hd
    rw [hd] at hf
    rcases List.mem_map.mp hf with ⟨key, _, rfl⟩
    exact ⟨rfl, rfl⟩

/-- Witness for C6 on the `{a:1, b:2}` versus `{b:3, c:4}` example:
the untouched field, the overwritten field. -/
theorem c6_upsert_embed_block_merge_witness :
    (_upsert_embed_block
      [{ description := some "a", field := "a", value := "1", ftype := "Custom" },
       { description := some "b", field := "b", value := "2", ftype := "Custom" }]
      [("b", "3"), ("c", "4")]).get? 0 =
      some { description := some "a", field := "a", value := "1", ftype := "Custom" } ∧
    (_upsert_embed_block
      [{ description := some "a", field := "a", value := "1", ftype := "Custom" },
       { description := some "b", field := "b", value := "2", ftype := "Custom" }]
      [("b", "3"), ("c", "4")]).get? 1 =
      some { description := some "b", field := "b", value := "3", ftype := "Custom" } :=
  ⟨(c6_upsert_embed_block_merge
      [{ description := some "a", field := "a", value := "1", ftype := "Custom" },
       { description := some "b", field := "b", value := "2", ftype := "Custom" }]
      [("b", "3"), ("c", "4")]).1 0
      { description := some "a", field := "a", value := "1", ftype := "Custom" }
      (by decide) (by decide),
   (c6_upsert_embed_block_merge
      [{ description := some "a", field := "a", value := "1", ftype := "Custom" },
       { description := some "b", field := "b", value := "2", ftype := "Custom" }]
      [("b", "3"), ("c", "4")]).2.1 1
      { description := some "b", field := "b", value := "2", ftype := "Custom" } "3"
      (by decide) (by decide)⟩

/-! ## Claim C5 -/

theorem findEmbedIdxFrom_spec :
    ∀ (l : List FlowElement) (k i : Nat), findEmbedIdxFrom k l = some i →
      k ≤ i ∧ ∃ el, l.get? (i - k) = some el ∧ el.ftype = "EmbeddedData" := by
  intro l
  induction l with
  | nil =>
    intro k i h
    simp [findEmbedIdxFrom] at h
  | cons el rest ih =>
    intro k i h
    rw [findEmbedIdxFrom] at h
    by_cases he : el.ftype == "EmbeddedData"
    · rw [if_pos he] at h
      have hik : i = k := by
        injection h with h2
        omega
      subst hik
      exact ⟨le_refl i, el, by simp, by simpa using he⟩
    · rw [if_neg he] at h
      obtain ⟨hki, el2, hget, hty⟩ := ih (k + 1) i h
      refine ⟨by omega, el2, ?_, hty⟩
      have : i - k = (i - (k + 1)) + 1 := by omega
      rw [this]
      simpa using hget

theorem findEmbedIdx_some (l : List FlowElement) (i : Nat) (h : findEmbedIdx l = some i) :
    ∃ el, l.get? i = some el ∧ el.ftype = "EmbeddedData" := by
  obtain ⟨_, el, hget, hty⟩ := findEmbedIdxFrom_spec l 0 i h
  exact ⟨el, by simpa using hget, hty⟩

theorem ensure_embedded_data_eq_none (s : SurveyState)
    (shared question : List (String × String)) (h : findEmbedIdx s.flow = none) :
    ensure_embedded_data s shared question =
      (RunResult.ok (),
       { s with flow :=
          ({ ftype := "EmbeddedData", flowID := _next_flow_id s.flow, blockID := "",
             embeddedData := _upsert_embed_block [] (dictMerge shared question),
             autofill := [], description := some "Chatbot Parameters" } : FlowElement) :: s.flow },
       [ApiCall.getFlowCall, ApiCall.putFlowCall
          (({ ftype := "EmbeddedData", flowID := _next_flow_id s.flow, blockID := "",
              embeddedData := _upsert_embed_block [] (dictMerge shared question),
              autofill := [], description := some "Chatbot Parameters" } : FlowElement) :: s.flow)]) := by
  rw [ensure_embedded_data]
  rw [h]

theorem ensure_embedded_data_eq_some (s : SurveyState)
    (shared question : List (String × String)) (i : Nat) (el : FlowElement)
    (h : findEmbedIdx s.flow = some i) (hget : s.flow.get? i = some el) :
    ensure_embedded_data s shared question =
      (RunResult.ok (),
       { s with flow :=
          { el with embeddedData := _upsert_embed_block el.embeddedData (dictMerge shared question) } ::
            s.flow.eraseIdx i },
       [ApiCall.getFlowCall, ApiCall.putFlowCall
          ({ el with embeddedData := _upsert_embed_block el.embeddedData (dictMerge shared question) } ::
            s.flow.eraseIdx i)]) := by
  simp only [ensure_embedded_data, h, hget]

/-- C5: for every starting flow, after Step 4 the run succeeds, the
element at flow index 0 is EmbeddedData-typed — freshly created (with
an empty field list fed to the merge) when none existed, or the first
existing one moved to the front — the relative order of all other flow
elements is preserved (the tail is the original flow with the moved
element erased), and the flow is written back once. -/
theorem c5_embedded_data_flow_ordering (s : SurveyState)
    (shared question : List (String × String)) :
    (ensure_embedded_data s shared question).1 = RunResult.ok () ∧
    ∃ e, (ensure_embedded_data s shared question).2.1.flow.head? = some e ∧
      e.ftype = "EmbeddedData" ∧
      (ensure_embedded_data s shared question).2.1.flow.tail =
        (match findEmbedIdx s.flow with
         | some i => s.flow.eraseIdx i
         | none => s.flow) ∧
      (findEmbedIdx s.flow = none →
        e = { ftype := "EmbeddedData", flowID := _next_flow_id s.flow, blockID := "",
              embeddedData := _upsert_embed_block [] (dictMerge shared question),
              autofill := [], description := some "Chatbot Parameters" }) ∧
      (∀ i el, findEmbedIdx s.flow = some i → s.flow.get? i = some el →
        e = { el with
              embeddedData := _upsert_embed_block el.embeddedData (dictMerge shared question) }) ∧
      (ensure_embedded_data s shared question).2.2 =
        [ApiCall.getFlowCall,
         ApiCall.putFlowCall ((ensure_embedded_data s shared question).2.1.flow)] := by
  cases h : findEmbedIdx s.flow with
  | none =>
    rw [ensure_embedded_data_eq_none s shared question h]
    refine ⟨rfl, _, rfl, rfl, rfl, fun _ => rfl, ?_, rfl⟩
    intro i el hi _
    exact absurd hi (by simp)
  | some i =>
    obtain ⟨el, hget, hty⟩ := findEmbedIdx_some s.flow i h
    rw [ensure_embedded_data_eq_some s shared question i el h hget]
    refine ⟨rfl, _, rfl, hty, rfl, ?_, ?_, rfl⟩
    · intro hnone
      exact absurd hnone (by simp)
    · intro j el2 hj hget2
      have hij : i = j := by
        injection hj
      subst hij
      rw [hget] at hget2
      have : el = el2 := by
        injection hget2
      subst this
      rfl

/-! ## Claim C7 -/

theorem ensure_chat_question_eq_create (s : SurveyState) (tag desired_text new_qid : String)
    (h : find_question_ids_by_tag s tag = []) :
    ensure_chat_question s tag desired_text new_qid =
      (RunResult.ok (new_qid, true),
       { s with questions := s.questions ++
          [(new_qid, { dataExportTag := tag, questionText := desired_text })] },
       [ApiCall.getSurveyDef,
        ApiCall.postQuestion { dataExportTag := tag, questionText := desired_text }]) := by
  rw [ensure_chat_question, h]

theorem ensure_chat_question_eq_single (s : SurveyState) (tag desired_text new_qid qid : String)
    (q : Question) (h : find_question_ids_by_tag s tag = [qid])
    (hq : lookupAssoc s.questions qid = some q) :
    ensure_chat_question s tag desired_text new_qid =
      (if q.questionText == desired_text then
        (RunResult.ok (qid, false), s, [ApiCall.getSurveyDef, ApiCall.getQuestion qid])
      else
        (RunResult.ok (qid, false),
         { s with questions := updateAssoc s.questions qid { q with questionText := desired_text } },
         [ApiCall.getSurveyDef, ApiCall.getQuestion qid, ApiCall.getQuestion qid,
          ApiCall.putQuestion qid { q with questionText := desired_text }])) := by
  simp only [ensure_chat_question, h, hq]

theorem ensure_chat_question_eq_ambiguous (s : SurveyState) (tag desired_text new_qid : String)
    (a b : String) (rest : List String) (h : find_question_ids_by_tag s tag = a :: b :: rest) :
    ensure_chat_question s tag desired_text new_qid =
      (RunResult.error (RunError.ambiguousTag (a :: b :: rest)), s, [ApiCall.getSurveyDef]) := by
  rw [ensure_chat_question, h]

/-- C7: with exactly one question carrying the tag, the step fetches it
and compares its text to the rendered desired content — equal means no
write and `wasCreated = false`, different means a single in-place PUT
(and `wasCreated = false`); with zero matches a single POST creates the
question and the step returns the new id with `wasCreated = true`. -/
theorem c7_question_upsert_short_circuit (s : SurveyState) (tag desired_text new_qid : String) :
    (find_question_ids_by_tag s tag = [] →
      ensure_chat_question s tag desired_text new_qid =
        (RunResult.ok (new_qid, true),
         { s with questions := s.questions ++
            [(new_qid, { dataExportTag := tag, questionText := desired_text })] },
         [ApiCall.getSurveyDef,
          ApiCall.postQuestion { dataExportTag := tag, questionText := desired_text }]) ∧
      [ApiCall.getSurveyDef,
       ApiCall.postQuestion
         ({ dataExportTag := tag, questionText := desired_text } : Question)].filter
        ApiCall.isMutating =
        [ApiCall.postQuestion { dataExportTag := tag, questionText := desired_text }]) ∧
    (∀ qid q, find_question_ids_by_tag s tag = [qid] → lookupAssoc s.questions qid = some q →
      (q.questionText = desired_text →
        ensure_chat_question s tag desired_text new_qid =
          (RunResult.ok (qid, false), s, [ApiCall.getSurveyDef, ApiCall.getQuestion qid]) ∧
        [ApiCall.getSurveyDef, ApiCall.getQuestion qid].filter ApiCall.isMutating = []) ∧
      (q.questionText ≠ desired_text →
        ensure_chat_question s tag desired_text new_qid =
          (RunResult.ok (qid, false),
           { s with questions :=
              updateAssoc s.questions qid { q with questionText := desired_text } },
           [ApiCall.getSurveyDef, ApiCall.getQuestion qid, ApiCall.getQuestion qid,
            ApiCall.putQuestion qid { q with questionText := desired_text }]) ∧
        [ApiCall.getSurveyDef, ApiCall.getQuestion qid, ApiCall.getQuestion qid,
         ApiCall.putQuestion qid { q with questionText := desired_text }].filter
          ApiCall.isMutating =
          [ApiCall.putQuestion qid { q with questionText := desired_text }])) := by
  refine ⟨?_, ?_⟩
  · intro h
    exact ⟨ensure_chat_question_eq_create s tag desired_text new_qid h, rfl⟩
  · intro qid q h hq
    have hsingle := ensure_chat_question_eq_single s tag desired_text new_qid qid q h hq
    constructor
    · intro heq
      rw [hsingle, if_pos (by simpa using heq)]
      exact ⟨rfl, rfl⟩
    · intro hne
      rw [hsingle, if_neg (by simpa using hne)]
      exact ⟨rfl, rfl⟩

/-- Witness for C7: the up-to-date question is left alone, the stale
one is rewritten in place with one PUT. -/
theorem c7_question_upsert_short_circuit_witness :
    ensure_chat_question
      { questions := [("QID1", { dataExportTag := "chat_ui", questionText := "HTML" })],
        blocks := [], flow := [] } "chat_ui" "HTML" "QIDX" =
      (RunResult.ok ("QID1", false),
       { questions := [("QID1", { dataExportTag := "chat_ui", questionText := "HTML" })],
         blocks := [], flow := [] },
       [ApiCall.getSurveyDef, ApiCall.getQuestion "QID1"]) :=
  ((c7_question_upsert_short_circuit
      { questions := [("QID1", { dataExportTag := "chat_ui", questionText := "HTML" })],
        blocks := [], flow := [] } "chat_ui" "HTML" "QIDX").2 "QID1"
      { dataExportTag := "chat_ui", questionText := "HTML" } (by decide) (by decide)).1
    (by decide) |>.1

/-! ## Claim C3 -/

/-- C3: when more than one question carries the business tag, the whole
run aborts with the ambiguity error — a reconciliation-level invariant
violation, not a transport error — leaving the state untouched, having
issued only the two read-only survey-definition GETs and no mutating
call of any kind (no question, block, or flow write). -/
theorem c3_ambiguous_tag_aborts (s : SurveyState)
    (tag desired_text new_qid new_bid : String)
    (shared question : List (String × String))
    (h : 2 ≤ (find_question_ids_by_tag s tag).length) :
    run_survey_build s tag desired_text new_qid new_bid shared question =
      (RunResult.error (RunError.ambiguousTag (find_question_ids_by_tag s tag)), s,
       [ApiCall.getSurveyDef, ApiCall.getSurveyDef]) ∧
    [ApiCall.getSurveyDef, ApiCall.getSurveyDef].filter ApiCall.isMutating = [] := by
  refine ⟨?_, rfl⟩
  match hids : find_question_ids_by_tag s tag with
  | [] =>
    rw [hids] at h
    exact absurd h (by simp)
  | [a] =>
    rw [hids] at h
    exact absurd h (by simp)
  | a :: b :: rest =>
    rw [run_survey_build,
      ensure_chat_question_eq_ambiguous s tag desired_text new_qid a b rest hids]
    rfl

/-- Witness for C3: two questions sharing the tag `chat_ui`. -/
theorem c3_ambiguous_tag_aborts_witness :
    run_survey_build
      { questions :=
          [("QID1", { dataExportTag := "chat_ui", questionText := "X" }),
           ("QID2", { dataExportTag := "chat_ui", questionText := "Y" })],
        blocks := [], flow := [] } "chat_ui" "HTML" "QIDX" "BLX" [] [] =
      (RunResult.error (RunError.ambiguousTag ["QID1", "QID2"]),
       { questions :=
           [("QID1", { dataExportTag := "chat_ui", questionText := "X" }),
            ("QID2", { dataExportTag := "chat_ui", questionText := "Y" })],
         blocks := [], flow := [] },
       [ApiCall.getSurveyDef, ApiCall.getSurveyDef]) :=
  (c3_ambiguous_tag_aborts
    { questions :=
        [("QID1", { dataExportTag := "chat_ui", questionText := "X" }),
         ("QID2", { dataExportTag := "chat_ui", questionText := "Y" })],
      blocks := [], flow := [] } "chat_ui" "HTML" "QIDX" "BLX" [] [] (by decide)).1

/-! ## Association-list and cleanup lemmas for ensure_question_block -/

/-- Whether a block contains an element referencing `qid`. -/
def blockHasQuestion (b : Block) (qid : String) : Bool :=
  b.blockElements.any (elementRefs qid)

theorem lookupAssoc_none_iff {α : Type} (l : List (String × α)) (k : String) :
    lookupAssoc l k = none ↔ ∀ p ∈ l, p.1 ≠ k := by
  rw [lookupAssoc, Option.map_eq_none', List.find?_eq_none]
  constructor
  · intro h p hp
    have := h p hp
    simpa using this
  · intro h p hp
    simpa using h p hp

theorem lookupAssoc_of_mem_nodup {α : Type} (l : List (String × α)) (k : String) (v : α)
    (hnodup : (l.map Prod.fst).Nodup) (hmem : (k, v) ∈ l) : lookupAssoc l k = some v := by
  induction l with
  | nil => simp at hmem
  | cons p rest ih =>
    rw [List.map_cons, List.nodup_cons] at hnodup
    rcases List.mem_cons.mp hmem with rfl | hmem
    · rw [lookupAssoc, List.find?_cons_of_pos _ (by simp)]
      rfl
    · have hne : p.1 ≠ k := by
        intro hkey
        exact hnodup.1 (hkey ▸ List.mem_map.mpr ⟨(k, v), hmem, rfl⟩)
      rw [lookupAssoc, List.find?_cons_of_neg _ (by simpa using hne)]
      exact ih hnodup.2 hmem

theorem lookupAssoc_append_self {α : Type} (l : List (String × α)) (k : String) (v : α)
    (h : lookupAssoc l k = none) : lookupAssoc (l ++ [(k, v)]) k = some v := by
  induction l with
  | nil => simp [lookupAssoc]
  | cons p rest ih =>
    have hne : p.1 ≠ k := (lookupAssoc_none_iff _ _).mp h p (List.mem_cons_self p rest)
    rw [List.cons_append, lookupAssoc, List.find?_cons_of_neg _ (by simpa using hne)]
    refine ih ?_
    rw [lookupAssoc, Option.map_eq_none'] at h ⊢
    rw [List.find?_cons_of_neg _ (by simpa using hne)] at h
    exact h

theorem updateAssoc_lookup_self {α : Type} (l : List (String × α)) (k : String) (v w : α)
    (h : lookupAssoc l k = some v) : lookupAssoc (updateAssoc l k w) k = some w := by
  induction l with
  | nil => simp [lookupAssoc] at h
  | cons p rest ih =>
    by_cases hk : p.1 = k
    · rw [updateAssoc, List.map_cons, if_pos (by simpa using hk), lookupAssoc,
        List.find?_cons_of_pos _ (by simp)]
      rfl
    · rw [updateAssoc, List.map_cons, if_neg (by simpa using hk), lookupAssoc,
        List.find?_cons_of_neg _ (by simpa using hk)]
      rw [lookupAssoc, List.find?_cons_of_neg _ (by simpa using hk)] at h
      exact ih h

theorem mem_updateAssoc {α : Type} (l : List (String × α)) (k : String) (v : α) :
    ∀ p ∈ updateAssoc l k v, p.1 ≠ k → p ∈ l := by
  intro p hp hne
  rw [updateAssoc] at hp
  rcases List.mem_map.mp hp with ⟨q, hq, heq⟩
  by_cases hk : q.1 = k
  · rw [if_pos (by simpa using hk)] at heq
    exact absurd (by rw [← heq]) hne
  · rw [if_neg (by simpa using hk)] at heq
    exact heq ▸ hq

theorem cleanupForeignBlocks_keys (qid chatbotId : String) :
    ∀ l, ((cleanupForeignBlocks qid chatbotId l).1.map Prod.fst) = l.map Prod.fst := by
  intro l
  induction l with
  | nil => rfl
  | cons p rest ih =>
    obtain ⟨bid, b⟩ := p
    rw [cleanupForeignBlocks]
    by_cases hc : bid == chatbotId
    · rw [if_pos hc]
      simpa using ih
    · rw [if_neg hc]
      by_cases hlen : (b.blockElements.filter (fun el => !(elementRefs qid el))).length ≠
          b.blockElements.length
      · rw [if_pos hlen]
        simpa using ih
      · rw [if_neg hlen]
        simpa using ih

theorem cleanupForeignBlocks_foreign_clean (qid chatbotId : String) :
    ∀ l, ∀ p ∈ (cleanupForeignBlocks qid chatbotId l).1, p.1 ≠ chatbotId →
      ∀ el ∈ p.2.blockElements, elementRefs qid el = false := by
  intro l
  induction l with
  | nil =>
    intro p hp
    simp [cleanupForeignBlocks] at hp
  | cons q rest ih =>
    intro p hp hne el hel
    obtain ⟨bid, b⟩ := q
    rw [cleanupForeignBlocks] at hp
    by_cases hc : bid == chatbotId
    · rw [if_pos hc] at hp
      rcases List.mem_cons.mp hp with rfl | hp
      · exact absurd (by simpa using hc) hne
      · exact ih p hp hne el hel
    · rw [if_neg hc] at hp
      by_cases hlen : (b.blockElements.filter (fun el => !(elementRefs qid el))).length ≠
          b.blockElements.length
      · rw [if_pos hlen] at hp
        rcases List.mem_cons.mp hp with rfl | hp
        · have := List.of_mem_filter hel
          simpa using this
        · exact ih p hp hne el hel
      · rw [if_neg hlen] at hp
        rcases List.mem_cons.mp hp with rfl | hp
        · have hfe : b.blockElements.filter (fun el => !(elementRefs qid el)) = b.blockElements := by
            push_neg at hlen
            exact List.Sublist.eq_of_length (List.filter_sublist b.blockElements) hlen
          have := (List.filter_eq_self.mp hfe) el hel
          simpa using this
        · exact ih p hp hne el hel

theorem cleanupForeignBlocks_lookup_chatbot (qid chatbotId : String) :
    ∀ l, lookupAssoc (cleanupForeignBlocks qid chatbotId l).1 chatbotId =
      lookupAssoc l chatbotId := by
  intro l
  induction l with
  | nil => rfl
  | cons q rest ih =>
    obtain ⟨bid, b⟩ := q
    rw [cleanupForeignBlocks]
    by_cases hc : bid == chatbotId
    · rw [if_pos hc, lookupAssoc, lookupAssoc, List.find?_cons_of_pos _ (by simpa using hc),
        List.find?_cons_of_pos _ (by simpa using hc)]
    · rw [if_neg hc]
      by_cases hlen : (b.blockElements.filter (fun el => !(elementRefs qid el))).length ≠
          b.blockElements.length
      · rw [if_pos hlen, lookupAssoc, lookupAssoc, List.find?_cons_of_neg _ (by simpa using hc),
          List.find?_cons_of_neg _ (by simpa using hc)]
        exact ih
      · rw [if_neg hlen, lookupAssoc, lookupAssoc, List.find?_cons_of_neg _ (by simpa using hc),
          List.find?_cons_of_neg _ (by simpa using hc)]
        exact ih

theorem cleanupForeignBlocks_trace (qid chatbotId : String) :
    ∀ l, ∀ c ∈ (cleanupForeignBlocks qid chatbotId l).2,
      ∃ bid b, c = ApiCall.putBlockCall bid
          { b with blockElements := b.blockElements.filter (fun el => !(elementRefs qid el)) } ∧
        (bid, b) ∈ l ∧ bid ≠ chatbotId ∧
        (b.blockElements.filter (fun el => !(elementRefs qid el))).length ≠
          b.blockElements.length := by
  intro l
  induction l with
  | nil =>
    intro c hc
    simp [cleanupForeignBlocks] at hc
  | cons q rest ih =>
    intro c hc
    obtain ⟨bid, b⟩ := q
    rw [cleanupForeignBlocks] at hc
    by_cases hbc : bid == chatbotId
    · rw [if_pos hbc] at hc
      obtain ⟨bid2, b2, h1, h2, h3, h4⟩ := ih c hc
      exact ⟨bid2, b2, h1, List.mem_cons_of_mem _ h2, h3, h4⟩
    · rw [if_neg hbc] at hc
      by_cases hlen : (b.blockElements.filter (fun el => !(elementRefs qid el))).length ≠
          b.blockElements.length
      · rw [if_pos hlen] at hc
        rcases List.mem_cons.mp hc with rfl | hc
        · exact ⟨bid, b, rfl, List.mem_cons_self _ _, by simpa using hbc, hlen⟩
        · obtain ⟨bid2, b2, h1, h2, h3, h4⟩ := ih c hc
          exact ⟨bid2, b2, h1, List.mem_cons_of_mem _ h2, h3, h4⟩
      · rw [if_neg hlen] at hc
        obtain ⟨bid2, b2, h1, h2, h3, h4⟩ := ih c hc
        exact ⟨bid2, b2, h1, List.mem_cons_of_mem _ h2, h3, h4⟩

theorem cleanupForeignBlocks_converged (qid chatbotId : String) :
    ∀ l, (∀ p ∈ l, p.1 = chatbotId ∨
        p.2.blockElements.filter (fun el => !(elementRefs qid el)) = p.2.blockElements) →
      cleanupForeignBlocks qid chatbotId l = (l, []) := by
  intro l
  induction l with
  | nil => intro _; rfl
  | cons q rest ih =>
    intro h
    obtain ⟨bid, b⟩ := q
    have hrest := ih (fun p hp => h p (List.mem_cons_of_mem _ hp))
    rw [cleanupForeignBlocks, hrest]
    rcases h (bid, b) (List.mem_cons_self _ _) with hc | hfil
    · rw [if_pos (by simpa using hc)]
    · by_cases hc : bid == chatbotId
      · rw [if_pos hc]
      · rw [if_neg hc, if_neg (by rw [hfil]; simp)]

theorem findChatbotBlockId_some (blocks : List (String × Block)) (bid : String)
    (h : findChatbotBlockId blocks = some bid) :
    ∃ b, (bid, b) ∈ blocks ∧ b.description = CHATBOT_BLOCK_DESCRIPTION := by
  rw [findChatbotBlockId] at h
  rcases Option.map_eq_some'.mp h with ⟨p, hfind, hfst⟩
  refine ⟨p.2, ?_, ?_⟩
  · rw [← hfst]
    exact List.mem_of_find?_eq_some hfind
  · have := List.find?_some hfind
    simpa using this

/-! ## Closed forms of ensure_question_block -/

/-- The target block as `ensure_question_block` reads it from the
blocks snapshot (the `all_blocks.get(chatbot_block_id, {}) or {}`
expression). -/
def targetBlockIn (blocks : List (String × Block)) (bid : String) : Block :=
  (lookupAssoc blocks bid).getD { description := "", blockElements := [] }

/-- The payload `ensure_question_block` writes to the target block when
appending the managed question. -/
def appendedTarget (b : Block) (qid : String) : Block :=
  { description := if b.description = "" then CHATBOT_BLOCK_DESCRIPTION else b.description,
    blockElements := b.blockElements ++ [{ etype := "Question", questionID := qid }] }

/-- The blocks dictionary right after the create-block branch. -/
def blocksWithNew (s : SurveyState) (new_bid : String) : List (String × Block) :=
  s.blocks ++ [(new_bid, { description := CHATBOT_BLOCK_DESCRIPTION, blockElements := [] })]

/-- The flow element `ensure_question_block` inserts for a freshly
created block. -/
def newBlockFlowElement (s : SurveyState) (new_bid : String) : FlowElement :=
  { ftype := "Standard", flowID := _next_flow_id s.flow, blockID := new_bid,
    embeddedData := [], autofill := [], description := none }

/-- The flow written back when the block was created this run. -/
def flowWithNewBlock (s : SurveyState) (new_bid : String) : List FlowElement :=
  insertAt (if s.flow = [] then 0 else 1) (newBlockFlowElement s new_bid) s.flow

theorem ensure_question_block_eq_found (s : SurveyState) (qid new_bid bid : String)
    (h : findChatbotBlockId s.blocks = some bid) :
    ensure_question_block s qid new_bid =
      (if blockHasQuestion (targetBlockIn s.blocks bid) qid then
        (RunResult.ok bid, { s with blocks := (cleanupForeignBlocks qid bid s.blocks).1 },
         ApiCall.getSurveyDef :: (cleanupForeignBlocks qid bid s.blocks).2)
      else
        (RunResult.ok bid,
         { s with
           blocks := updateAssoc (cleanupForeignBlocks qid bid s.blocks).1 bid
             (appendedTarget (targetBlockIn s.blocks bid) qid) },
         ApiCall.getSurveyDef :: ((cleanupForeignBlocks qid bid s.blocks).2 ++
           [ApiCall.putBlockCall bid (appendedTarget (targetBlockIn s.blocks bid) qid)]))) := by
  simp only [ensure_question_block, h, Option.getD_some, Option.isNone_some, Bool.false_eq_true,
    if_false, blockHasQuestion, targetBlockIn, appendedTarget]
  by_cases hp : ((lookupAssoc s.blocks bid).getD
      { description := "", blockElements := [] }).blockElements.any (elementRefs qid)
  · rw [if_pos hp, if_pos hp]
    rfl
  · rw [if_neg hp, if_neg hp]
    rfl

theorem ensure_question_block_eq_created (s : SurveyState) (qid new_bid : String)
    (h : findChatbotBlockId s.blocks = none) :
    ensure_question_block s qid new_bid =
      (if blockHasQuestion (targetBlockIn (blocksWithNew s new_bid) new_bid) qid then
        (RunResult.ok new_bid,
         { s with
           blocks := (cleanupForeignBlocks qid new_bid (blocksWithNew s new_bid)).1,
           flow := flowWithNewBlock s new_bid },
         [ApiCall.getSurveyDef, ApiCall.postBlockCall CHATBOT_BLOCK_DESCRIPTION,
          ApiCall.getSurveyDef] ++ (cleanupForeignBlocks qid new_bid (blocksWithNew s new_bid)).2 ++
         [ApiCall.getFlowCall, ApiCall.putFlowCall (flowWithNewBlock s new_bid)])
      else
        (RunResult.ok new_bid,
         { s with
           blocks := updateAssoc (cleanupForeignBlocks qid new_bid (blocksWithNew s new_bid)).1
             new_bid (appendedTarget (targetBlockIn (blocksWithNew s new_bid) new_bid) qid),
           flow := flowWithNewBlock s new_bid },
         [ApiCall.getSurveyDef, ApiCall.postBlockCall CHATBOT_BLOCK_DESCRIPTION,
          ApiCall.getSurveyDef] ++
         ((cleanupForeignBlocks qid new_bid (blocksWithNew s new_bid)).2 ++
          [ApiCall.putBlockCall new_bid
            (appendedTarget (targetBlockIn (blocksWithNew s new_bid) new_bid) qid)]) ++
         [ApiCall.getFlowCall, ApiCall.putFlowCall (flowWithNewBlock s new_bid)])) := by
  simp only [ensure_question_block, h, Option.getD_none, Option.isNone_none, if_true,
    blockHasQuestion, targetBlockIn, appendedTarget, blocksWithNew, newBlockFlowElement,
    flowWithNewBlock]
  by_cases hp : ((lookupAssoc (s.blocks ++
      [(new_bid, ({ description := CHATBOT_BLOCK_DESCRIPTION, blockElements := [] } : Block))])
      new_bid).getD
      ({ description := "", blockElements := [] } : Block)).blockElements.any (elementRefs qid)
  · rw [if_pos hp, if_pos hp]
  · rw [if_neg hp, if_neg hp]

/-! ## Claim C8 -/

theorem filter_isFlowWrite_cleanup (qid chatbotId : String) (l : List (String × Block)) :
    ((cleanupForeignBlocks qid chatbotId l).2).filter ApiCall.isFlowWrite = [] := by
  rw [List.filter_eq_nil_iff]
  intro c hc
  obtain ⟨bid, b, hceq, _, _, _⟩ := cleanupForeignBlocks_trace qid chatbotId l c hc
  rw [hceq]
  simp [ApiCall.isFlowWrite]

/-- C8 (amended): a flow write happens if and only if the target block
was newly created this run.  When it was, exactly one new flow element
referencing the block, carrying a freshly generated flow id, is
inserted at flow index 1 when the flow is non-empty and at index 0 when
the flow is empty (the code guards `insert_pos = 1 if flow_elements
else 0`), and the updated flow is written back once; when the block
already existed, the flow is neither read nor written. -/
theorem c8_new_block_flow_placement (s : SurveyState) (qid new_bid : String) :
    (∀ bid, findChatbotBlockId s.blocks = some bid →
      ∃ s2 tr, ensure_question_block s qid new_bid = (RunResult.ok bid, s2, tr) ∧
        s2.flow = s.flow ∧ tr.filter ApiCall.isFlowWrite = []) ∧
    (findChatbotBlockId s.blocks = none →
      ∃ s2 tr, ensure_question_block s qid new_bid = (RunResult.ok new_bid, s2, tr) ∧
        s2.flow = flowWithNewBlock s new_bid ∧
        tr.filter ApiCall.isFlowWrite = [ApiCall.putFlowCall (flowWithNewBlock s new_bid)] ∧
        (newBlockFlowElement s new_bid).blockID = new_bid ∧
        (∀ el ∈ s.flow, el.flowID ≠ (newBlockFlowElement s new_bid).flowID) ∧
        (s.flow = [] → s2.flow = [newBlockFlowElement s new_bid]) ∧
        (s.flow ≠ [] → s2.flow.get? 1 = some (newBlockFlowElement s new_bid))) := by
  constructor
  · intro bid h
    have heq := ensure_question_block_eq_found s qid new_bid bid h
    by_cases hp : blockHasQuestion (targetBlockIn s.blocks bid) qid
    · rw [if_pos hp] at heq
      refine ⟨_, _, heq, rfl, ?_⟩
      simp [List.filter_cons, ApiCall.isFlowWrite,
        filter_isFlowWrite_cleanup qid bid s.blocks]
    · rw [if_neg hp] at heq
      refine ⟨_, _, heq, rfl, ?_⟩
      simp [List.filter_cons, List.filter_append, ApiCall.isFlowWrite,
        filter_isFlowWrite_cleanup qid bid s.blocks]
  · intro h
    have heq := ensure_question_block_eq_created s qid new_bid h
    have hplace : (s.flow = [] → flowWithNewBlock s new_bid = [newBlockFlowElement s new_bid]) ∧
        (s.flow ≠ [] →
          (flowWithNewBlock s new_bid).get? 1 = some (newBlockFlowElement s new_bid)) := by
      constructor
      · intro hnil
        rw [flowWithNewBlock, hnil]
        rfl
      · intro hne
        cases hflow : s.flow with
        | nil => exact absurd hflow hne
        | cons y rest =>
          rw [flowWithNewBlock, hflow, if_neg (by simp)]
          rfl
    by_cases hp : blockHasQuestion (targetBlockIn (blocksWithNew s new_bid) new_bid) qid
    · rw [if_pos hp] at heq
      refine ⟨_, _, heq, rfl, ?_, rfl, _next_flow_id_fresh s.flow, hplace.1, hplace.2⟩
      simp [List.filter_cons, List.filter_append, ApiCall.isFlowWrite,
        filter_isFlowWrite_cleanup qid new_bid (blocksWithNew s new_bid)]
    · rw [if_neg hp] at heq
      refine ⟨_, _, heq, rfl, ?_, rfl, _next_flow_id_fresh s.flow, hplace.1, hplace.2⟩
      simp [List.filter_cons, List.filter_append, ApiCall.isFlowWrite,
        filter_isFlowWrite_cleanup qid new_bid (blocksWithNew s new_bid)]

/-- Witness for C8: a survey with an existing chatbot block issues no
flow write; one without it gets the block flow element appended to a
one-element flow at index 1. -/
theorem c8_new_block_flow_placement_witness :
    (∃ s2 tr, ensure_question_block
        { questions := [], blocks := [("BL_1", { description := "AI Chatbot", blockElements := [] })],
          flow := [stdFlowElement "FL_1"] } "QID1" "BLX" = (RunResult.ok "BL_1", s2, tr) ∧
      s2.flow = [stdFlowElement "FL_1"] ∧ tr.filter ApiCall.isFlowWrite = []) ∧
    (∃ s2 tr, ensure_question_block
        { questions := [], blocks := [], flow := [stdFlowElement "FL_1"] } "QID1" "BLX" =
          (RunResult.ok "BLX", s2, tr) ∧
      s2.flow = flowWithNewBlock
        { questions := [], blocks := [], flow := [stdFlowElement "FL_1"] } "BLX" ∧
      tr.filter ApiCall.isFlowWrite = [ApiCall.putFlowCall (flowWithNewBlock
        { questions := [], blocks := [], flow := [stdFlowElement "FL_1"] } "BLX")] ∧
      (newBlockFlowElement
        { questions := [], blocks := [], flow := [stdFlowElement "FL_1"] } "BLX").blockID = "BLX" ∧
      (∀ el ∈ [stdFlowElement "FL_1"], el.flowID ≠ (newBlockFlowElement
        { questions := [], blocks := [], flow := [stdFlowElement "FL_1"] } "BLX").flowID) ∧
      ([stdFlowElement "FL_1"] = ([] : List FlowElement) →
        s2.flow = [newBlockFlowElement
          { questions := [], blocks := [], flow := [stdFlowElement "FL_1"] } "BLX"]) ∧
      ([stdFlowElement "FL_1"] ≠ ([] : List FlowElement) →
        s2.flow.get? 1 = some (newBlockFlowElement
          { questions := [], blocks := [], flow := [stdFlowElement "FL_1"] } "BLX"))) :=
  ⟨(c8_new_block_flow_placement
      { questions := [], blocks := [("BL_1", { description := "AI Chatbot", blockElements := [] })],
        flow := [stdFlowElement "FL_1"] } "QID1" "BLX").1 "BL_1" (by decide),
   (c8_new_block_flow_placement
      { questions := [], blocks := [], flow := [stdFlowElement "FL_1"] } "QID1" "BLX").2
     (by decide)⟩

/-- C8 counterexample: with an empty flow, the newly created block's
flow element is inserted at index 0, not at index 1 as the claim
states (the code sets `insert_pos = 1 if flow_elements else 0`). -/
theorem c8_new_block_flow_placement_counterexample :
    (ensure_question_block { questions := [], blocks := [], flow := [] } "QID1" "BLN").2.1.flow =
      [{ ftype := "Standard", flowID := "FL_1", blockID := "BLN", embeddedData := [],
         autofill := [], description := none }] ∧
    (ensure_question_block { questions := [], blocks := [], flow := [] } "QID1" "BLN").2.1.flow.get?
      1 = none ∧
    (ensure_question_block { questions := [], blocks := [], flow := [] }
      "QID1" "BLN").2.2.filter ApiCall.isFlowWrite ≠ [] := by
  refine ⟨by decide, by decide, by decide⟩

/-! ## Claim C4 -/

theorem blockHasQuestion_appendedTarget (b : Block) (qid : String) :
    blockHasQuestion (appendedTarget b qid) qid = true := by
  simp [blockHasQuestion, appendedTarget, List.any_append, elementRefs]

theorem cleanup_trace_only_changed (qid cid : String)
    (blocks base : List (String × Block))
    (hkeys : (base.map Prod.fst).Nodup)
    (hsub : ∀ bid b, (bid, b) ∈ blocks → bid ≠ cid → (bid, b) ∈ base) :
    ∀ c ∈ (cleanupForeignBlocks qid cid blocks).2, ∀ bid2 b2,
      c = ApiCall.putBlockCall bid2 b2 →
      (lookupAssoc base bid2).map Block.blockElements ≠ some b2.blockElements := by
  intro c hc bid2 b2 hceq
  obtain ⟨bid3, b3, hceq2, hmem, hne, hlen⟩ := cleanupForeignBlocks_trace qid cid blocks c hc
  rw [hceq] at hceq2
  have hbid : bid2 = bid3 := by
    injection hceq2 with h1 h2
    try exact h1
  have hb2 : b2 = { b3 with blockElements :=
      b3.blockElements.filter (fun el => !(elementRefs qid el)) } := by
    injection hceq2 with h1 h2
    try exact h2
  subst hbid
  have hbase : lookupAssoc base bid2 = some b3 :=
    lookupAssoc_of_mem_nodup base bid2 b3 hkeys (hsub bid2 b3 hmem hne)
  rw [hbase]
  intro hcontra
  have helems : b3.blockElements = b2.blockElements := by
    injection hcontra
  have helems2 : b3.blockElements = b3.blockElements.filter (fun el => !(elementRefs qid el)) := by
    conv_lhs => rw [helems, hb2]
  exact hlen (congrArg List.length helems2.symm)

/-- C4: after Step 3 succeeds — from any initial block configuration
with well-formed (duplicate-free) block ids and a fresh id for a
potential create — the managed question id is a member of the target
chatbot block's element list and absent from every other block's
element list, and every block written back carries an element list
different from that block's initial one (only changed blocks are
written). -/
theorem c4_exclusive_block_membership (s : SurveyState) (qid new_bid : String)
    (hkeys : (s.blocks.map Prod.fst).Nodup)
    (hfresh : lookupAssoc s.blocks new_bid = none) :
    ∃ bid s2 tr, ensure_question_block s qid new_bid = (RunResult.ok bid, s2, tr) ∧
      (lookupAssoc s2.blocks bid).map (fun b => blockHasQuestion b qid) = some true ∧
      (∀ p ∈ s2.blocks, p.1 ≠ bid → ∀ el ∈ p.2.blockElements, elementRefs qid el = false) ∧
      (∀ c ∈ tr, ∀ bid2 b2, c = ApiCall.putBlockCall bid2 b2 →
        (lookupAssoc s.blocks bid2).map Block.blockElements ≠ some b2.blockElements) := by
  cases hfind : findChatbotBlockId s.blocks with
  | some bid =>
    obtain ⟨tb, htbmem, _⟩ := findChatbotBlockId_some s.blocks bid hfind
    have htb : lookupAssoc s.blocks bid = some tb :=
      lookupAssoc_of_mem_nodup s.blocks bid tb hkeys htbmem
    have htarget : targetBlockIn s.blocks bid = tb := by
      rw [targetBlockIn, htb]
      rfl
    have heq := ensure_question_block_eq_found s qid new_bid bid hfind
    have htrace := cleanup_trace_only_changed qid bid s.blocks s.blocks hkeys
      (fun _ _ hm _ => hm)
    by_cases hp : blockHasQuestion (targetBlockIn s.blocks bid) qid
    · rw [if_pos hp] at heq
      refine ⟨bid, _, _, heq, ?_, ?_, ?_⟩
      · rw [cleanupForeignBlocks_lookup_chatbot, htb]
        rw [htarget] at hp
        simp [hp]
      · intro p hp2 hne el hel
        exact cleanupForeignBlocks_foreign_clean qid bid s.blocks p hp2 hne el hel
      · intro c hc bid2 b2 hceq
        rcases List.mem_cons.mp hc with rfl | hc
        · exact absurd hceq (by simp)
        · exact htrace c hc bid2 b2 hceq
    · rw [if_neg hp] at heq
      refine ⟨bid, _, _, heq, ?_, ?_, ?_⟩
      · have hclean : lookupAssoc (cleanupForeignBlocks qid bid s.blocks).1 bid = some tb := by
          rw [cleanupForeignBlocks_lookup_chatbot]
          exact htb
        rw [updateAssoc_lookup_self _ _ tb _ hclean]
        simp [blockHasQuestion_appendedTarget]
      · intro p hp2 hne el hel
        have hp3 := mem_updateAssoc _ _ _ p hp2 hne
        exact cleanupForeignBlocks_foreign_clean qid bid s.blocks p hp3 hne el hel
      · intro c hc bid2 b2 hceq
        rcases List.mem_cons.mp hc with rfl | hc
        · exact absurd hceq (by simp)
        rcases List.mem_append.mp hc with hc | hc
        · exact htrace c hc bid2 b2 hceq
        · rcases List.mem_singleton.mp hc with rfl
          have hbid : bid2 = bid := by
            injection hceq with h1 h2
            exact h1.symm
          have hb2 : b2 = appendedTarget (targetBlockIn s.blocks bid) qid := by
            injection hceq with h1 h2
            exact h2.symm
          subst hbid
          rw [htb, hb2, htarget]
          intro hcontra
          have helems : tb.blockElements = (appendedTarget tb qid).blockElements := by
            injection hcontra
          rw [appendedTarget] at helems
          have : tb.blockElements.length = tb.blockElements.length + 1 := by
            conv_lhs => rw [helems]
            simp
          omega
  | none =>
    have hnotmem : new_bid ∉ s.blocks.map Prod.fst := by
      intro hmem
      rcases List.mem_map.mp hmem with ⟨p, hp, hkey⟩
      exact (lookupAssoc_none_iff s.blocks new_bid).mp hfresh p hp hkey
    have hkeys1 : ((blocksWithNew s new_bid).map Prod.fst).Nodup := by
      rw [blocksWithNew, List.map_append]
      simp only [List.map_cons, List.map_nil]
      rw [List.nodup_append]
      exact ⟨hkeys, List.nodup_singleton _, by simpa using fun h => hnotmem h⟩
    have htb : lookupAssoc (blocksWithNew s new_bid) new_bid =
        some { description := CHATBOT_BLOCK_DESCRIPTION, blockElements := [] } :=
      lookupAssoc_append_self s.blocks new_bid _ hfresh
    have htarget : targetBlockIn (blocksWithNew s new_bid) new_bid =
        { description := CHATBOT_BLOCK_DESCRIPTION, blockElements := [] } := by
      rw [targetBlockIn, htb]
      rfl
    have heq := ensure_question_block_eq_created s qid new_bid hfind
    have hp : ¬ blockHasQuestion (targetBlockIn (blocksWithNew s new_bid) new_bid) qid = true := by
      rw [htarget]
      simp [blockHasQuestion]
    rw [if_neg hp] at heq
    have htrace := cleanup_trace_only_changed qid new_bid (blocksWithNew s new_bid) s.blocks hkeys
      (fun bid b hm hne => by
        rcases List.mem_append.mp hm with hm | hm
        · exact hm
        · rcases List.mem_singleton.mp hm with heq2
          exact absurd (congrArg Prod.fst heq2) (by simpa using hne))
    refine ⟨new_bid, _, _, heq, ?_, ?_, ?_⟩
    · have hclean : lookupAssoc (cleanupForeignBlocks qid new_bid (blocksWithNew s new_bid)).1
          new_bid = some { description := CHATBOT_BLOCK_DESCRIPTION, blockElements := [] } := by
        rw [cleanupForeignBlocks_lookup_chatbot]
        exact htb
      rw [updateAssoc_lookup_self _ _ _ _ hclean]
      simp [blockHasQuestion_appendedTarget]
    · intro p hp2 hne el hel
      have hp3 := mem_updateAssoc _ _ _ p hp2 hne
      exact cleanupForeignBlocks_foreign_clean qid new_bid (blocksWithNew s new_bid) p hp3 hne el hel
    · intro c hc bid2 b2 hceq
      rcases List.mem_append.mp hc with hc | hc
      · rcases List.mem_append.mp hc with hc | hc
        · rcases List.mem_cons.mp hc with rfl | hc
          · exact absurd hceq (by simp)
          rcases List.mem_cons.mp hc with rfl | hc
          · exact absurd hceq (by simp)
          rcases List.mem_singleton.mp hc with rfl
          exact absurd hceq (by simp)
        · rcases List.mem_append.mp hc with hc | hc
          · exact htrace c hc bid2 b2 hceq
          · rcases List.mem_singleton.mp hc with rfl
            have hbid : bid2 = new_bid := by
              injection hceq with h1 h2
              exact h1.symm
            subst hbid
            rw [hfresh]
            simp
      · rcases List.mem_cons.mp hc with rfl | hc
        · exact absurd hceq (by simp)
        rcases List.mem_singleton.mp hc with rfl
        exact absurd hceq (by simp)

/-- Witness for C4: the managed question sits in two foreign blocks;
after the step it lives only in the chatbot block. -/
theorem c4_exclusive_block_membership_witness :
    ∃ bid s2 tr, ensure_question_block
        { questions := [],
          blocks :=
            [("BL_A", { description := "Other",
                        blockElements := [{ etype := "Question", questionID := "QID1" }] }),
             ("BL_B", { description := "AI Chatbot", blockElements := [] }),
             ("BL_C", { description := "Misc",
                        blockElements := [{ etype := "Question", questionID := "QID1" },
                                          { etype := "Question", questionID := "QID2" }] })],
          flow := [] } "QID1" "BLX" = (RunResult.ok bid, s2, tr) ∧
      (lookupAssoc s2.blocks bid).map (fun b => blockHasQuestion b "QID1") = some true ∧
      (∀ p ∈ s2.blocks, p.1 ≠ bid → ∀ el ∈ p.2.blockElements, elementRefs "QID1" el = false) ∧
      (∀ c ∈ tr, ∀ bid2 b2, c = ApiCall.putBlockCall bid2 b2 →
        (lookupAssoc
          [("BL_A", ({ description := "Other",
                       blockElements := [{ etype := "Question", questionID := "QID1" }] } : Block)),
           ("BL_B", { description := "AI Chatbot", blockElements := [] }),
           ("BL_C", { description := "Misc",
                      blockElements := [{ etype := "Question", questionID := "QID1" },
                                        { etype := "Question", questionID := "QID2" }] })]
          bid2).map Block.blockElements ≠ some b2.blockElements) :=
  c4_exclusive_block_membership
    { questions := [],
      blocks :=
        [("BL_A", { description := "Other",
                    blockElements := [{ etype := "Question", questionID := "QID1" }] }),
         ("BL_B", { description := "AI Chatbot", blockElements := [] }),
         ("BL_C", { description := "Misc",
                    blockElements := [{ etype := "Question", questionID := "QID1" },
                                      { etype := "Question", questionID := "QID2" }] })],
      flow := [] } "QID1" "BLX" (by decide) (by decide)

/-- Witness for C5: a four-element flow with the embedded-data element
at index 3 ends with it at index 0 and the other three in order. -/
theorem c5_embedded_data_flow_ordering_witness :
    (ensure_embedded_data
      { questions := [], blocks := [],
        flow := [stdFlowElement "FL_1", stdFlowElement "FL_2", stdFlowElement "FL_3",
                 { ftype := "EmbeddedData", flowID := "FL_4", blockID := "", embeddedData := [],
                   autofill := [], description := some "Chatbot Parameters" }] } [] []).2.1.flow.tail =
    [stdFlowElement "FL_1", stdFlowElement "FL_2", stdFlowElement "FL_3"] := by
  obtain ⟨h1, e, hhead, hty, htail, hnone, hsome, htr⟩ :=
    c5_embedded_data_flow_ordering
      { questions := [], blocks := [],
        flow := [stdFlowElement "FL_1", stdFlowElement "FL_2", stdFlowElement "FL_3",
                 { ftype := "EmbeddedData", flowID := "FL_4", blockID := "", embeddedData := [],
                   autofill := [], description := some "Chatbot Parameters" }] } [] []
  rw [htail]
  decide

/-! ## Claim C1 -/

/-- The remote question state already matches the desired state: one
question carries the tag and its text is the rendered desired text. -/
def ConvergedQuestion (s : SurveyState) (tag desired_text qid : String) : Prop :=
  find_question_ids_by_tag s tag = [qid] ∧
  (lookupAssoc s.questions qid).map Question.questionText = some desired_text

/-- The remote block state already matches the desired state: the
chatbot block exists, contains the question, and no other block has an
element referencing it (its cleanup filter is a no-op). -/
def ConvergedBlocks (s : SurveyState) (qid bid : String) : Prop :=
  findChatbotBlockId s.blocks = some bid ∧
  (lookupAssoc s.blocks bid).map (fun b => blockHasQuestion b qid) = some true ∧
  ∀ p ∈ s.blocks, p.1 = bid ∨
    p.2.blockElements.filter (fun el => !(elementRefs qid el)) = p.2.blockElements

/-- A field on which the merge of `_upsert_embed_block` is a no-op:
either its key is not desired, or value and type already match and a
description is present (so `setdefault` changes nothing). -/
def fieldMergedAlready (data : List (String × String)) (f : EmbeddedField) : Bool :=
  match lookupAssoc data f.field with
  | some v => f.value == v && f.ftype == "Custom" && f.description.isSome
  | none => true

/-- The remote flow already matches the desired state: the first flow
element is the embedded-data element, every desired key is present in
its field list, and every field is already merged. -/
def ConvergedFlow (s : SurveyState) (data : List (String × String)) : Prop :=
  s.flow.head?.map FlowElement.ftype = some "EmbeddedData" ∧
  s.flow.head?.map (fun e => e.embeddedData.all (fieldMergedAlready data)) = some true ∧
  s.flow.head?.map (fun e => data.all (fun p => e.embeddedData.any (fun f => f.field == p.1))) =
    some true

theorem upsert_map_noop (data : List (String × String)) :
    ∀ (current : List EmbeddedField), current.all (fieldMergedAlready data) = true →
      current.map (fun field_obj =>
        match lookupAssoc data field_obj.field with
        | some v =>
          { field_obj with
            value := v, ftype := "Custom",
            description :=
              match field_obj.description with
              | none => some field_obj.field
              | some d => some d }
        | none => field_obj) = current := by
  intro current
  induction current with
  | nil => intro _; rfl
  | cons f rest ih =>
    intro h
    rw [List.all_cons, Bool.and_eq_true] at h
    rw [List.map_cons, ih h.2]
    have hf := h.1
    rw [fieldMergedAlready] at hf
    cases hlk : lookupAssoc data f.field with
    | none =>
      rw [hlk] at hf
    | some v =>
      rw [hlk] at hf
      simp only [Bool.and_eq_true, beq_iff_eq] at hf
      obtain ⟨⟨hval, hty⟩, hdesc⟩ := hf
      obtain ⟨d, hd⟩ := Option.isSome_iff_exists.mp hdesc
      simp only [hlk]
      cases f with
      | mk desc fld val ty =>
        simp only at hval hty hd
        subst hval
        subst hty
        subst hd
        rfl

theorem upsert_embed_block_converged (current : List EmbeddedField)
    (data : List (String × String))
    (h1 : current.all (fieldMergedAlready data) = true)
    (h2 : data.all (fun p => current.any (fun f => f.field == p.1)) = true) :
    _upsert_embed_block current data = current := by
  rw [_upsert_embed_block]
  have hrem : (data.map (fun p => p.1)).filter
      (fun k => !(current.any (fun f => f.field == k))) = [] := by
    rw [List.filter_eq_nil_iff]
    intro k hk
    rcases List.mem_map.mp hk with ⟨p, hp, rfl⟩
    have hpk := (List.all_eq_true.mp h2) p hp
    simp only at hpk
    simp [hpk]
  rw [hrem, upsert_map_noop data current h1]
  simp [sortKeys]

/-- C1 (amended): when the remote survey state already equals the
desired state, the run succeeds returning the existing question and
block ids, leaves the remote state unchanged, and issues exactly one
mutating call — the unconditional flow PUT of Step 4, whose payload
equals the flow already remote (a semantic no-op).  Steps 1 to 3 issue
no mutating call; hence the second of two consecutive runs with
identical desired configuration performs exactly this one no-op write,
not zero writes. -/
theorem c1_converged_run_single_noop_write (s : SurveyState)
    (tag desired_text qid bid new_qid new_bid : String)
    (shared question : List (String × String))
    (h1 : ConvergedQuestion s tag desired_text qid)
    (h2 : ConvergedBlocks s qid bid)
    (h3 : ConvergedFlow s (dictMerge shared question)) :
    ∃ tr, run_survey_build s tag desired_text new_qid new_bid shared question =
        (RunResult.ok (qid, bid), s, tr) ∧
      tr.filter ApiCall.isMutating = [ApiCall.putFlowCall s.flow] := by
  obtain ⟨hfind1, hmap1⟩ := h1
  obtain ⟨hfind3, hhas, hforeign⟩ := h2
  obtain ⟨hty0, hall0, hany0⟩ := h3
  cases hlq : lookupAssoc s.questions qid with
  | none =>
    rw [hlq] at hmap1
    exact absurd hmap1 (by simp)
  | some q =>
    rw [hlq] at hmap1
    have htext : q.questionText = desired_text := by
      simpa using hmap1
    have heq2 : ensure_chat_question s tag desired_text new_qid =
        (RunResult.ok (qid, false), s, [ApiCall.getSurveyDef, ApiCall.getQuestion qid]) := by
      rw [ensure_chat_question_eq_single s tag desired_text new_qid qid q hfind1 hlq,
        if_pos (by simpa using htext)]
    have hconv := cleanupForeignBlocks_converged qid bid s.blocks hforeign
    have hp : blockHasQuestion (targetBlockIn s.blocks bid) qid = true := by
      cases hlb : lookupAssoc s.blocks bid with
      | none =>
        rw [hlb] at hhas
        exact absurd hhas (by simp)
      | some tb =>
        rw [hlb] at hhas
        rw [targetBlockIn, hlb]
        simpa using hhas
    have heq3 : ensure_question_block s qid new_bid =
        (RunResult.ok bid, s, [ApiCall.getSurveyDef]) := by
      rw [ensure_question_block_eq_found s qid new_bid bid hfind3, if_pos hp, hconv]
    cases hflow : s.flow with
    | nil =>
      rw [hflow] at hty0
      exact absurd hty0 (by simp)
    | cons e rest =>
      have hhead : s.flow.head? = some e := by
        rw [hflow]
        rfl
      rw [hhead] at hty0 hall0 hany0
      have hety : e.ftype = "EmbeddedData" := by simpa using hty0
      have hall : e.embeddedData.all (fieldMergedAlready (dictMerge shared question)) = true := by
        simpa using hall0
      have hany : (dictMerge shared question).all
          (fun p => e.embeddedData.any (fun f => f.field == p.1)) = true := by
        simpa using hany0
      have hidx : findEmbedIdx s.flow = some 0 := by
        rw [hflow, findEmbedIdx, findEmbedIdxFrom, if_pos (by simp [hety])]
      have hget : s.flow.get? 0 = some e := by
        rw [hflow]
        rfl
      have hup := upsert_embed_block_converged e.embeddedData (dictMerge shared question) hall hany
      have hflow2 : ({ e with
          embeddedData := _upsert_embed_block e.embeddedData (dictMerge shared question) } :
            FlowElement) :: s.flow.eraseIdx 0 = s.flow := by
        rw [hup, hflow]
        rfl
      have heq4 : ensure_embedded_data s shared question =
          (RunResult.ok (), s, [ApiCall.getFlowCall, ApiCall.putFlowCall s.flow]) := by
        rw [ensure_embedded_data_eq_some s shared question 0 e hidx hget, hflow2]
      refine ⟨[ApiCall.getSurveyDef] ++ [ApiCall.getSurveyDef, ApiCall.getQuestion qid] ++
        [ApiCall.getSurveyDef] ++ [ApiCall.getFlowCall, ApiCall.putFlowCall s.flow], ?_, ?_⟩
      · simp only [run_survey_build, heq2, heq3, heq4]
      · rw [hflow]
        simp [List.filter_append, List.filter_cons, ApiCall.isMutating]

/-- A fully converged remote survey: one question with the business
tag and the desired text, the chatbot block owning it exclusively, the
embedded-data element first in the flow with the desired field already
merged. -/
def convergedExampleState : SurveyState :=
  { questions := [("QID1", { dataExportTag := "chat_ui", questionText := "HTML" })],
    blocks := [("BL_2", { description := "AI Chatbot",
                          blockElements := [{ etype := "Question", questionID := "QID1" }] })],
    flow :=
      [{ ftype := "EmbeddedData", flowID := "FL_2", blockID := "",
         embeddedData := [{ description := some "proxy_url", field := "proxy_url",
                            value := "https://p", ftype := "Custom" }],
         autofill := [], description := some "Chatbot Parameters" },
       { ftype := "Standard", flowID := "FL_3", blockID := "BL_2", embeddedData := [],
         autofill := [], description := none }] }

/-- C1 counterexample: on a remote state that already equals the
desired state, the run still issues one mutating call — the
unconditional flow PUT of Step 4 — so the claimed zero mutating calls
is refuted. -/
theorem c1_idempotent_run_counterexample :
    ConvergedQuestion convergedExampleState "chat_ui" "HTML" "QID1" ∧
    ConvergedBlocks convergedExampleState "QID1" "BL_2" ∧
    ConvergedFlow convergedExampleState (dictMerge [("proxy_url", "https://p")] []) ∧
    (run_survey_build convergedExampleState "chat_ui" "HTML" "QIDX" "BLX"
      [("proxy_url", "https://p")] []).2.2.filter ApiCall.isMutating =
      [ApiCall.putFlowCall convergedExampleState.flow] ∧
    (run_survey_build convergedExampleState "chat_ui" "HTML" "QIDX" "BLX"
      [("proxy_url", "https://p")] []).2.2.filter ApiCall.isMutating ≠ [] := by
  refine ⟨?_, ?_, ?_, by decide, by decide⟩
  · unfold ConvergedQuestion; decide
  · unfold ConvergedBlocks; decide
  · unfold ConvergedFlow; decide

/-- Witness for C1: the amended theorem applied to the converged
example state. -/
theorem c1_converged_run_single_noop_write_witness :
    ∃ tr, run_survey_build convergedExampleState "chat_ui" "HTML" "QIDX" "BLX"
        [("proxy_url", "https://p")] [] =
        (RunResult.ok ("QID1", "BL_2"), convergedExampleState, tr) ∧
      tr.filter ApiCall.isMutating = [ApiCall.putFlowCall convergedExampleState.flow] :=
  c1_converged_run_single_noop_write convergedExampleState "chat_ui" "HTML" "QID1" "BL_2"
    "QIDX" "BLX" [("proxy_url", "https://p")] []
    (by unfold ConvergedQuestion; decide)
    (by unfold ConvergedBlocks; decide)
    (by unfold ConvergedFlow; decide)

end QualtricsBuild
